import Mathlib

/-!
Stack clone model for `internal/helm/templatev1beta2/stack.go`.

The Go code copies records that hold pointers, slices and maps, so the
embedding passes an explicit heap: every Go object that is reached through a
pointer, a slice or a map is a cell of a typed store, a reference is `none`
(Go `nil`) or the address of a cell, and `new`/`make` add a cell at the end of
a store. A run that dereferences `nil` or an address outside the heap stops
with `none`.
-/

set_option linter.dupNamespace false
set_option linter.unusedSectionVars false

namespace Templatev1beta2

/-- Go reference (pointer, slice or map): `none` is `nil`, `some a` the address of a cell. -/
abbrev Ptr := Option Nat

/-! ## Template types (package `templatetypes`) -/

/-- Modelled from the spec: the kind of a Template Token; package `templatetypes` is imported by
`stack.go` but is not among the sources. -/
inductive TokenKind where
  | Literal
  | Placeholder
  | Mixed
  deriving DecidableEq, Repr

/-- Modelled from the spec: the Template Token of package `templatetypes` (raw text, kind and the
ordered placeholder names). -/
structure TemplateToken where
  raw : String
  kind : TokenKind
  placeholderNames : List String
  deriving DecidableEq, Repr

/-- Modelled from the spec: the type tag of a Template Value. -/
inductive TypeTag where
  | Text
  | Bool
  | UInt64
  | Duration
  | ByteSize
  deriving DecidableEq, Repr

/-- Modelled from the spec: a Template Value of package `templatetypes` wraps a Template Token and
carries a type tag. -/
structure TemplateValue (tag : TypeTag) where
  token : TemplateToken
  deriving DecidableEq, Repr

/-- Modelled from the spec: `templatetypes.StringTemplate`, the Text instance of Template Value. -/
abbrev StringTemplate := TemplateValue TypeTag.Text
/-- Modelled from the spec: `templatetypes.BoolOrTemplate`, the Bool instance of Template Value. -/
abbrev BoolOrTemplate := TemplateValue TypeTag.Bool
/-- Modelled from the spec: `templatetypes.UInt64OrTemplate`, the UInt64 instance of Template
Value. -/
abbrev UInt64OrTemplate := TemplateValue TypeTag.UInt64
/-- Modelled from the spec: `templatetypes.DurationOrTemplate`, the Duration instance of Template
Value. -/
abbrev DurationOrTemplate := TemplateValue TypeTag.Duration
/-- Modelled from the spec: `templatetypes.UnitBytesOrTemplate`, the ByteSize instance of Template
Value. -/
abbrev UnitBytesOrTemplate := TemplateValue TypeTag.ByteSize

/-- Zero value of a template value: the empty literal. -/
def TemplateValue.zero (tag : TypeTag) : TemplateValue tag :=
  { token := { raw := "", kind := TokenKind.Literal, placeholderNames := [] } }

instance (tag : TypeTag) : Inhabited (TemplateValue tag) := ⟨TemplateValue.zero tag⟩

/-! ## Records of `stack.go` -/

/-- Go `TypeMeta`: the rewrite of `metav1.TypeMeta` declared in `stack.go`. -/
structure TypeMeta where
  Kind : String
  APIVersion : String
  deriving DecidableEq, Repr, Inhabited

/-- Go `metav1.TypeMeta` (embedded in `StackList`); `stack.go` documents its own `TypeMeta` as a
rewrite of it, so it has the same two string fields. -/
structure MetaV1TypeMeta where
  Kind : String
  APIVersion : String
  deriving DecidableEq, Repr, Inhabited

/-- Go `External` identifies a resource that is not managed. -/
structure External where
  Name : String
  External : Bool
  deriving DecidableEq, Repr, Inhabited

/-- Go `FileObjectConfig`; `Labels` is a Go map, held by reference. -/
structure FileObjectConfig where
  Name : StringTemplate
  File : StringTemplate
  External : External
  Labels : Ptr
  deriving DecidableEq, Repr, Inhabited

/-- Go `type SecretConfig FileObjectConfig`. -/
abbrev SecretConfig := FileObjectConfig

/-- Go `type ConfigObjConfig FileObjectConfig`. -/
abbrev ConfigObjConfig := FileObjectConfig

/-- Go `Resources`: two pointers to `Resource` records. -/
structure Resources where
  Limits : Ptr
  Reservations : Ptr
  deriving DecidableEq, Repr, Inhabited

/-- Go `Placement`: a pointer to a `Constraints` record. -/
structure Placement where
  Constraints : Ptr
  deriving DecidableEq, Repr, Inhabited

/-- Go `DeployConfig`; `Labels` is a map and `UpdateConfig`, `RestartPolicy` are pointers, all held
by reference. -/
structure DeployConfig where
  Mode : StringTemplate
  Replicas : UInt64OrTemplate
  Labels : Ptr
  UpdateConfig : Ptr
  Resources : Resources
  RestartPolicy : Ptr
  Placement : Placement
  deriving DecidableEq, Repr, Inhabited

/-- Go `ServiceConfig`. Slice, map and pointer fields (among them `Tmpfs`, a
`templatetypes.StringTemplateList`) are references; the objects behind them are never read or
written by the code of `stack.go`, so they have no store in the heap below. -/
structure ServiceConfig where
  Name : String
  CapAdd : Ptr
  CapDrop : Ptr
  Command : Ptr
  Configs : Ptr
  Deploy : DeployConfig
  Entrypoint : Ptr
  Environment : Ptr
  ExtraHosts : Ptr
  Hostname : StringTemplate
  HealthCheck : Ptr
  Image : StringTemplate
  Ipc : StringTemplate
  Labels : Ptr
  Pid : StringTemplate
  Ports : Ptr
  Privileged : BoolOrTemplate
  ReadOnly : BoolOrTemplate
  Secrets : Ptr
  StdinOpen : BoolOrTemplate
  StopGracePeriod : DurationOrTemplate
  Tmpfs : Ptr
  Tty : BoolOrTemplate
  User : Ptr
  Volumes : Ptr
  WorkingDir : StringTemplate
  deriving DecidableEq, Repr, Inhabited

/-- Go `StackSpec`: a slice of services and two maps, all three held by reference. -/
structure StackSpec where
  Services : Ptr
  Secrets : Ptr
  Configs : Ptr
  deriving DecidableEq, Repr, Inhabited

/-- Go `type StackPhase string`. -/
abbrev StackPhase := String

/-- Go `StackAvailable`. -/
def StackAvailable : StackPhase := "Available"
/-- Go `StackProgressing`. -/
def StackProgressing : StackPhase := "Progressing"
/-- Go `StackFailure`. -/
def StackFailure : StackPhase := "Failure"

/-- Go `StackStatus`. -/
structure StackStatus where
  Phase : StackPhase
  Message : String
  deriving DecidableEq, Repr, Inhabited

/-- Go `Stack`; `metav1.ObjectMeta` belongs to an external library and is a type parameter. -/
structure Stack (ObjectMeta : Type) where
  TypeMeta : TypeMeta
  ObjectMeta : ObjectMeta
  Spec : Ptr
  Status : Ptr
  deriving DecidableEq, Repr, Inhabited

/-- Go `StackList`; `metav1.ListMeta` belongs to an external library and is a type parameter.
`Items` is a slice of `Stack`, held by reference. -/
structure StackList (ListMeta : Type) where
  TypeMeta : MetaV1TypeMeta
  ListMeta : ListMeta
  Items : Ptr
  deriving DecidableEq, Repr, Inhabited

/-- Go `runtime.Object` interface value, as far as `stack.go` builds one: the nil interface, or a
dynamic type together with a pointer (which may itself be nil). -/
inductive Object where
  | nil
  | stack (p : Ptr)
  | stackList (p : Ptr)
  deriving DecidableEq, Repr

/-! ## Heap -/

/-- Typed stores. A slice is modelled by its backing array, whose length is the length of the
slice; a map by its list of entries. -/
structure Heap (ObjectMeta ListMeta : Type) where
  stackCells : List (Stack ObjectMeta)
  specs : List StackSpec
  statuses : List StackStatus
  serviceArrays : List (List ServiceConfig)
  secretMaps : List (List (String × SecretConfig))
  configMaps : List (List (String × ConfigObjConfig))
  stackArrays : List (List (Stack ObjectMeta))
  stackLists : List (StackList ListMeta)
  deriving DecidableEq, Repr

section Code

variable {ObjectMeta ListMeta : Type} [Inhabited ObjectMeta] [Inhabited ListMeta]

/-- Empty heap. -/
def Heap.empty : Heap ObjectMeta ListMeta :=
  { stackCells := [], specs := [], statuses := [], serviceArrays := [], secretMaps := [],
    configMaps := [], stackArrays := [], stackLists := [] }

/-- Go `new(Stack)`: a fresh zero cell. -/
def Heap.newStack (h : Heap ObjectMeta ListMeta) : Heap ObjectMeta ListMeta × Nat :=
  ({ h with stackCells := h.stackCells ++ [default] }, h.stackCells.length)

/-- Assignment to (a field of) the `Stack` cell at `a`. -/
def Heap.setStack (h : Heap ObjectMeta ListMeta) (a : Nat)
    (f : Stack ObjectMeta → Stack ObjectMeta) : Option (Heap ObjectMeta ListMeta) :=
  match h.stackCells[a]? with
  | none => none
  | some c => some { h with stackCells := h.stackCells.set a (f c) }

/-- Assignment to (a field of) the `StackSpec` cell at `a`. -/
def Heap.setSpec (h : Heap ObjectMeta ListMeta) (a : Nat)
    (f : StackSpec → StackSpec) : Option (Heap ObjectMeta ListMeta) :=
  match h.specs[a]? with
  | none => none
  | some c => some { h with specs := h.specs.set a (f c) }

/-- Assignment to (a field of) the `StackStatus` cell at `a`. -/
def Heap.setStatus (h : Heap ObjectMeta ListMeta) (a : Nat)
    (f : StackStatus → StackStatus) : Option (Heap ObjectMeta ListMeta) :=
  match h.statuses[a]? with
  | none => none
  | some c => some { h with statuses := h.statuses.set a (f c) }

/-- Assignment to (a field of) the `StackList` cell at `a`. -/
def Heap.setStackList (h : Heap ObjectMeta ListMeta) (a : Nat)
    (f : StackList ListMeta → StackList ListMeta) : Option (Heap ObjectMeta ListMeta) :=
  match h.stackLists[a]? with
  | none => none
  | some c => some { h with stackLists := h.stackLists.set a (f c) }

/-- Go `func (s *StackSpec) clone() *StackSpec`: nil for nil, otherwise `result := *s` and the
address of the new variable. -/
def StackSpec.clone (h : Heap ObjectMeta ListMeta) (s : Ptr) :
    Option (Heap ObjectMeta ListMeta × Ptr) :=
  match s with
  | none => some (h, none)
  | some a =>
    match h.specs[a]? with
    | none => none
    | some result => some ({ h with specs := h.specs ++ [result] }, some h.specs.length)

/-- Go `func (s *StackStatus) clone() *StackStatus`: nil for nil, otherwise `result := *s` and the
address of the new variable. -/
def StackStatus.clone (h : Heap ObjectMeta ListMeta) (s : Ptr) :
    Option (Heap ObjectMeta ListMeta × Ptr) :=
  match s with
  | none => some (h, none)
  | some a =>
    match h.statuses[a]? with
    | none => none
    | some result => some ({ h with statuses := h.statuses ++ [result] }, some h.statuses.length)

/-- Go `func (s *Stack) clone() *Stack`. -/
def Stack.clone (h : Heap ObjectMeta ListMeta) (s : Ptr) :
    Option (Heap ObjectMeta ListMeta × Ptr) :=
  match s with
  | none => some (h, none)
  | some a => do
    let (h, result) := h.newStack
    let sv ← h.stackCells[a]?
    let h ← h.setStack result fun r => { r with TypeMeta := sv.TypeMeta }
    let sv ← h.stackCells[a]?
    let h ← h.setStack result fun r => { r with ObjectMeta := sv.ObjectMeta }
    let sv ← h.stackCells[a]?
    let (h, spec) ← StackSpec.clone h sv.Spec
    let h ← h.setStack result fun r => { r with Spec := spec }
    let sv ← h.stackCells[a]?
    let (h, status) ← StackStatus.clone h sv.Status
    let h ← h.setStack result fun r => { r with Status := status }
    some (h, some result)

/-- Go `func (s *Stack) Clone() *Stack`. -/
def Stack.Clone (h : Heap ObjectMeta ListMeta) (s : Ptr) :
    Option (Heap ObjectMeta ListMeta × Ptr) :=
  Stack.clone h s

/-- Go `func (s *Stack) DeepCopyObject() runtime.Object`: the pointer returned by `clone`, wrapped
in the interface. -/
def Stack.DeepCopyObject (h : Heap ObjectMeta ListMeta) (s : Ptr) :
    Option (Heap ObjectMeta ListMeta × Object) :=
  match Stack.clone h s with
  | none => none
  | some (h, p) => some (h, Object.stack p)

/-- The `for ix, s := range s.Items` loop of `StackList.DeepCopyObject`, from index `ix` with
`n` iterations left: `src` is the backing array of the ranged slice, `result` the new list and
`sVar` the loop variable, whose address is the receiver of `clone`. -/
def StackList.cloneItems (src result sVar : Nat) :
    Nat → Nat → Heap ObjectMeta ListMeta → Option (Heap ObjectMeta ListMeta)
  | 0, _, h => some h
  | n + 1, ix, h => do
    let arr ← h.stackArrays[src]?
    let elem ← arr[ix]?
    let h ← h.setStack sVar fun _ => elem
    let (h, p) ← Stack.clone h (some sVar)
    let a ← p
    let v ← h.stackCells[a]?
    let r ← h.stackLists[result]?
    let dst ← r.Items
    let darr ← h.stackArrays[dst]?
    if ix < darr.length then
      StackList.cloneItems src result sVar n (ix + 1)
        { h with stackArrays := h.stackArrays.set dst (darr.set ix v) }
    else none

/-- Go `func (s *StackList) DeepCopyObject() runtime.Object`. -/
def StackList.DeepCopyObject (h : Heap ObjectMeta ListMeta) (s : Ptr) :
    Option (Heap ObjectMeta ListMeta × Object) :=
  match s with
  | none => some (h, Object.nil)
  | some a => do
    let result := h.stackLists.length
    let h : Heap ObjectMeta ListMeta := { h with stackLists := h.stackLists ++ [default] }
    let sv ← h.stackLists[a]?
    let h ← h.setStackList result fun r => { r with TypeMeta := sv.TypeMeta }
    let sv ← h.stackLists[a]?
    let h ← h.setStackList result fun r => { r with ListMeta := sv.ListMeta }
    let sv ← h.stackLists[a]?
    match sv.Items with
    | none => some (h, Object.stackList (some result))
    | some src => do
      let arr ← h.stackArrays[src]?
      let items := h.stackArrays.length
      let h : Heap ObjectMeta ListMeta :=
        { h with stackArrays := h.stackArrays ++ [List.replicate arr.length default] }
      let h ← h.setStackList result fun r => { r with Items := some items }
      let (h, sVar) := h.newStack
      let h ← StackList.cloneItems src result sVar arr.length 0 h
      some (h, Object.stackList (some result))

/-! ## Values read back from the heap

Two objects are equal by value when reading them back gives the same tree. The outer `Option`
of a reader is the fault (`none`: some reference met on the way is outside the heap), the inner
one is Go `nil`. -/

/-- Value of a `StackSpec`: the services in order and the entries of the two maps. -/
structure StackSpecValue where
  Services : Option (List ServiceConfig)
  Secrets : Option (List (String × SecretConfig))
  Configs : Option (List (String × ConfigObjConfig))
  deriving DecidableEq, Repr

/-- Value of a `Stack`. -/
structure StackValue (ObjectMeta : Type) where
  TypeMeta : TypeMeta
  ObjectMeta : ObjectMeta
  Spec : Option StackSpecValue
  Status : Option StackStatus
  deriving DecidableEq, Repr

/-- Value of a `StackList`. -/
structure StackListValue (ObjectMeta ListMeta : Type) where
  TypeMeta : MetaV1TypeMeta
  ListMeta : ListMeta
  Items : Option (List (StackValue ObjectMeta))
  deriving DecidableEq, Repr

/-- Content of the cell behind a reference. -/
def readRef {α : Type} (store : List α) : Ptr → Option (Option α)
  | none => some none
  | some a =>
    match store[a]? with
    | none => none
    | some v => some (some v)

/-- Value of the `StackSpec` behind `p`. -/
def Heap.readSpec (h : Heap ObjectMeta ListMeta) : Ptr → Option (Option StackSpecValue)
  | none => some none
  | some a =>
    match h.specs[a]? with
    | none => none
    | some c =>
      match readRef h.serviceArrays c.Services, readRef h.secretMaps c.Secrets,
          readRef h.configMaps c.Configs with
      | some services, some secrets, some configs =>
        some (some { Services := services, Secrets := secrets, Configs := configs })
      | _, _, _ => none

/-- Value of a `Stack` record held in a variable or an array. -/
def Heap.readStackValue (h : Heap ObjectMeta ListMeta) (c : Stack ObjectMeta) :
    Option (StackValue ObjectMeta) :=
  match h.readSpec c.Spec, readRef h.statuses c.Status with
  | some spec, some status =>
    some { TypeMeta := c.TypeMeta, ObjectMeta := c.ObjectMeta, Spec := spec, Status := status }
  | _, _ => none

/-- Value of the `Stack` behind `p`. -/
def Heap.readStack (h : Heap ObjectMeta ListMeta) : Ptr → Option (Option (StackValue ObjectMeta))
  | none => some none
  | some a =>
    match h.stackCells[a]? with
    | none => none
    | some c =>
      match h.readStackValue c with
      | none => none
      | some v => some (some v)

/-- Values of the records of an array of `Stack`, in order. -/
def Heap.readStackValues (h : Heap ObjectMeta ListMeta) :
    List (Stack ObjectMeta) → Option (List (StackValue ObjectMeta))
  | [] => some []
  | c :: cs =>
    match h.readStackValue c, h.readStackValues cs with
    | some v, some vs => some (v :: vs)
    | _, _ => none

/-- Value of the items slice `p` of a list. -/
def Heap.readItems (h : Heap ObjectMeta ListMeta) :
    Ptr → Option (Option (List (StackValue ObjectMeta)))
  | none => some none
  | some b =>
    match h.stackArrays[b]? with
    | none => none
    | some arr =>
      match h.readStackValues arr with
      | none => none
      | some vs => some (some vs)

/-- Value of the `StackList` behind `p`. -/
def Heap.readStackList (h : Heap ObjectMeta ListMeta) :
    Ptr → Option (Option (StackListValue ObjectMeta ListMeta))
  | none => some none
  | some a =>
    match h.stackLists[a]? with
    | none => none
    | some c =>
      match h.readItems c.Items with
      | none => none
      | some items => some (some { TypeMeta := c.TypeMeta, ListMeta := c.ListMeta, Items := items })

/-- A stack of the heap: nil, or a cell from which every reference met is nil or allocated. -/
def Heap.ValidStack (h : Heap ObjectMeta ListMeta) (p : Ptr) : Prop :=
  (h.readStack p).isSome = true

/-- A stack list of the heap: nil, or a cell from which every reference met is nil or
allocated. -/
def Heap.ValidStackList (h : Heap ObjectMeta ListMeta) (p : Ptr) : Prop :=
  (h.readStackList p).isSome = true

instance (h : Heap ObjectMeta ListMeta) (p : Ptr) : Decidable (h.ValidStack p) := by
  unfold Heap.ValidStack; infer_instance

instance (h : Heap ObjectMeta ListMeta) (p : Ptr) : Decidable (h.ValidStackList p) := by
  unfold Heap.ValidStackList; infer_instance

/-! ## Go statements that mutate a stack through a pointer -/

/-- Assignments to a direct field of the blocks of the stack `p`, or of `p` itself. -/
inductive Assign where
  /-- Statement `p.Spec.Services = v`. -/
  | specServices (v : Ptr)
  /-- Statement `p.Spec.Secrets = v`. -/
  | specSecrets (v : Ptr)
  /-- Statement `p.Spec.Configs = v`. -/
  | specConfigs (v : Ptr)
  /-- Statement `p.Status.Phase = v`. -/
  | statusPhase (v : StackPhase)
  /-- Statement `p.Status.Message = v`. -/
  | statusMessage (v : String)
  /-- Statement `p.Spec = v`. -/
  | spec (v : Ptr)
  /-- Statement `p.Status = v`. -/
  | status (v : Ptr)
  deriving DecidableEq, Repr

/-- Address of the `StackSpec` of the stack `p` (`p.Spec`, then its dereference). -/
def Heap.specOf (h : Heap ObjectMeta ListMeta) (p : Ptr) : Option Nat :=
  match p with
  | none => none
  | some a =>
    match h.stackCells[a]? with
    | none => none
    | some c => c.Spec

/-- Address of the `StackStatus` of the stack `p`. -/
def Heap.statusOf (h : Heap ObjectMeta ListMeta) (p : Ptr) : Option Nat :=
  match p with
  | none => none
  | some a =>
    match h.stackCells[a]? with
    | none => none
    | some c => c.Status

/-- Run one assignment through the stack pointer `p`. -/
def Heap.assign (h : Heap ObjectMeta ListMeta) (p : Ptr) :
    Assign → Option (Heap ObjectMeta ListMeta)
  | Assign.specServices v =>
    match h.specOf p with
    | none => none
    | some b => h.setSpec b fun c => { c with Services := v }
  | Assign.specSecrets v =>
    match h.specOf p with
    | none => none
    | some b => h.setSpec b fun c => { c with Secrets := v }
  | Assign.specConfigs v =>
    match h.specOf p with
    | none => none
    | some b => h.setSpec b fun c => { c with Configs := v }
  | Assign.statusPhase v =>
    match h.statusOf p with
    | none => none
    | some b => h.setStatus b fun c => { c with Phase := v }
  | Assign.statusMessage v =>
    match h.statusOf p with
    | none => none
    | some b => h.setStatus b fun c => { c with Message := v }
  | Assign.spec v =>
    match p with
    | none => none
    | some a => h.setStack a fun c => { c with Spec := v }
  | Assign.status v =>
    match p with
    | none => none
    | some a => h.setStack a fun c => { c with Status := v }

/-- Go `m[k] = v` on the entries of a map: replace the entry of `k`, or add one. -/
def mapPut {β : Type} (k : String) (v : β) (m : List (String × β)) : List (String × β) :=
  if m.any (fun e => e.1 == k) then m.map (fun e => if e.1 == k then (k, v) else e)
  else m ++ [(k, v)]

/-- Go `delete(m, k)` on the entries of a map. -/
def mapDelete {β : Type} (k : String) (m : List (String × β)) : List (String × β) :=
  m.filter (fun e => !(e.1 == k))

/-- Statement `p.Spec.Services[i].Name = name`: an in-place write to an element of the services. -/
def Heap.setServiceName (h : Heap ObjectMeta ListMeta) (p : Ptr) (i : Nat) (name : String) :
    Option (Heap ObjectMeta ListMeta) := do
  let b ← h.specOf p
  let c ← h.specs[b]?
  let s ← c.Services
  let arr ← h.serviceArrays[s]?
  let e ← arr[i]?
  some { h with serviceArrays := h.serviceArrays.set s (arr.set i { e with Name := name }) }

/-- Statement `p.Spec.Secrets[k] = v`: insert or replace an entry (a write to a nil map faults). -/
def Heap.putSecret (h : Heap ObjectMeta ListMeta) (p : Ptr) (k : String) (v : SecretConfig) :
    Option (Heap ObjectMeta ListMeta) := do
  let b ← h.specOf p
  let c ← h.specs[b]?
  let m ← c.Secrets
  let entries ← h.secretMaps[m]?
  some { h with secretMaps := h.secretMaps.set m (mapPut k v entries) }

/-- Statement `delete(p.Spec.Secrets, k)` (no effect on a nil map). -/
def Heap.deleteSecret (h : Heap ObjectMeta ListMeta) (p : Ptr) (k : String) :
    Option (Heap ObjectMeta ListMeta) := do
  let b ← h.specOf p
  let c ← h.specs[b]?
  match c.Secrets with
  | none => some h
  | some m =>
    let entries ← h.secretMaps[m]?
    some { h with secretMaps := h.secretMaps.set m (mapDelete k entries) }

/-- Statement `p.Spec.Configs[k] = v`: insert or replace an entry (a write to a nil map faults). -/
def Heap.putConfig (h : Heap ObjectMeta ListMeta) (p : Ptr) (k : String) (v : ConfigObjConfig) :
    Option (Heap ObjectMeta ListMeta) := do
  let b ← h.specOf p
  let c ← h.specs[b]?
  let m ← c.Configs
  let entries ← h.configMaps[m]?
  some { h with configMaps := h.configMaps.set m (mapPut k v entries) }

/-- Statement `delete(p.Spec.Configs, k)` (no effect on a nil map). -/
def Heap.deleteConfig (h : Heap ObjectMeta ListMeta) (p : Ptr) (k : String) :
    Option (Heap ObjectMeta ListMeta) := do
  let b ← h.specOf p
  let c ← h.specs[b]?
  match c.Configs with
  | none => some h
  | some m =>
    let entries ← h.configMaps[m]?
    some { h with configMaps := h.configMaps.set m (mapDelete k entries) }

/-- Statement `p.Items[i] = other` on the stack list `p` (nil list, nil items or an index out of range
fault). -/
def Heap.setItem (h : Heap ObjectMeta ListMeta) (p : Ptr) (i : Nat) (other : Stack ObjectMeta) :
    Option (Heap ObjectMeta ListMeta) := do
  let a ← p
  let c ← h.stackLists[a]?
  let b ← c.Items
  let arr ← h.stackArrays[b]?
  if i < arr.length then
    some { h with stackArrays := h.stackArrays.set b (arr.set i other) }
  else none

/-! ## Object kind of `TypeMeta`

`GroupVersionKind`, `FromAPIVersionAndKind` and `ToAPIVersionAndKind` belong to the library
`k8s.io/apimachinery/pkg/runtime/schema`, which `stack.go` imports and which is not among the
sources; they are written here after the group/version convention of that library. The three
methods of `TypeMeta` are those of `stack.go`. Strings are sequences of characters. -/

/-- Modelled from the spec: `schema.GroupVersion` of the imported library
`k8s.io/apimachinery`, which is not among the sources: a group and a version. -/
structure GroupVersion where
  Group : String
  Version : String
  deriving DecidableEq, Repr

/-- Modelled from the spec: `schema.GroupVersionKind` of the imported library
`k8s.io/apimachinery`, which is not among the sources: a group, a version and a kind. -/
structure GroupVersionKind where
  Group : String
  Version : String
  Kind : String
  deriving DecidableEq, Repr

/-- Modelled from the spec: `gvk.Empty()` of the imported library (not among the sources): the
three strings have length zero. -/
def GroupVersionKind.Empty (gvk : GroupVersionKind) : Bool :=
  gvk.Group.length == 0 && gvk.Version.length == 0 && gvk.Kind.length == 0

/-- Modelled from the spec: `gv.String()` of the imported library (not among the sources), the
API version of the external typed-API convention: `group/version`, or the version alone when
the group is empty. -/
def GroupVersion.String (gv : GroupVersion) : String :=
  if gv.Group.length > 0 then gv.Group ++ "/" ++ gv.Version else gv.Version

/-- Modelled from the spec: `gvk.ToAPIVersionAndKind()` of the imported library (not among the
sources): two empty strings for the empty value, otherwise the group-version string and the
kind. -/
def GroupVersionKind.ToAPIVersionAndKind (gvk : GroupVersionKind) : String × String :=
  if gvk.Empty then ("", "")
  else (GroupVersion.String { Group := gvk.Group, Version := gvk.Version }, gvk.Kind)

/-- Modelled from the spec: `schema.ParseGroupVersion` of the imported library (not among the
sources): the empty string and `/` give the empty group-version, a string without `/` is a
version, a string with one `/` is split at it, more than one is an error. -/
def ParseGroupVersion (gv : String) : Option GroupVersion :=
  if gv.length == 0 || gv == "/" then some { Group := "", Version := "" }
  else
    match gv.data.count '/' with
    | 0 => some { Group := "", Version := gv }
    | 1 =>
      some { Group := String.mk (gv.data.takeWhile fun ch => ch != '/'),
             Version := String.mk ((gv.data.dropWhile fun ch => ch != '/').drop 1) }
    | _ => none

/-- Modelled from the spec: `schema.FromAPIVersionAndKind` of the imported library (not among
the sources): the parsed group and version with the kind, or the kind alone when the API
version does not parse. -/
def FromAPIVersionAndKind (apiVersion kind : String) : GroupVersionKind :=
  match ParseGroupVersion apiVersion with
  | some gv => { Group := gv.Group, Version := gv.Version, Kind := kind }
  | none => { Group := "", Version := "", Kind := kind }

/-- Go `func (obj *TypeMeta) GetObjectKind() schema.ObjectKind`: the receiver, as an interface
value holding the same pointer. -/
def TypeMeta.GetObjectKind (obj : Ptr) : Ptr := obj

/-- Go `func (obj *TypeMeta) GroupVersionKind() schema.GroupVersionKind`, on a store of `TypeMeta`
records. -/
def TypeMeta.GroupVersionKind (store : List TypeMeta) (obj : Ptr) : Option GroupVersionKind :=
  match obj with
  | none => none
  | some a =>
    match store[a]? with
    | none => none
    | some tm => some (FromAPIVersionAndKind tm.APIVersion tm.Kind)

/-- Go `func (obj *TypeMeta) SetGroupVersionKind(gvk schema.GroupVersionKind)`, on a store of
`TypeMeta` records: `obj.APIVersion, obj.Kind = gvk.ToAPIVersionAndKind()`. -/
def TypeMeta.SetGroupVersionKind (store : List TypeMeta) (obj : Ptr)
    (gvk : Templatev1beta2.GroupVersionKind) : Option (List TypeMeta) :=
  match obj with
  | none => none
  | some a =>
    match store[a]? with
    | none => none
    | some _ =>
      some (store.set a
        { APIVersion := gvk.ToAPIVersionAndKind.1, Kind := gvk.ToAPIVersionAndKind.2 })

/-! ## Template parsing and rendering

The parser and the renderer of template values are code of package `templatetypes` and of the
Helm renderer, which are not among the sources; they are written here after sections 4.1, 4.2
and 7 of the specification. -/

/-- Modelled from the spec: the error taxonomy of the render pass (parser and renderer are not
among the sources); every error carries the field path. -/
inductive RenderError where
  | MalformedTemplate (path : String)
  | UnresolvedParameter (name : String) (path : String)
  | TypeMismatch (path : String) (expected : String) (actual : String)
  | OutOfRange (path : String)
  deriving DecidableEq, Repr

/-- Modelled from the spec: the Parameter Set, a mapping from parameter name to literal value
(the renderer is not among the sources). -/
abbrev ParameterSet := List (String × String)

/-- Modelled from the spec: a piece of a template text, literal text or one placeholder (the
parser is not among the sources). -/
inductive Segment where
  | text (s : List Char)
  | placeholder (name : String)
  deriving DecidableEq, Repr

/-- Modelled from the spec: state of the scan for the placeholder delimiters (the parser is
not among the sources): in literal text, right after a dollar sign, or inside the braces with
the name read so far. -/
inductive ScanState where
  | outside
  | dollar
  | inside (name : List Char)
  deriving DecidableEq, Repr

/-- Modelled from the spec: the identifier grammar of placeholder names, alphanumeric plus
underscore, dot and dash (the parser is not among the sources). -/
def isIdentChar (c : Char) : Bool :=
  c.isAlphanum || c == '_' || c == '.' || c == '-'

/-- Literal text read so far, as a segment. -/
def flushText (lit : List Char) (rest : List Segment) : List Segment :=
  if lit.isEmpty then rest else Segment.text lit :: rest

/-- Modelled from the spec: scan of a raw text for the placeholder syntax (the parser is not
among the sources); `none` is a malformed placeholder (unterminated, empty, or with a character
outside the identifier grammar). -/
def scanSegments : List Char → List Char → ScanState → Option (List Segment)
  | [], lit, ScanState.outside => some (flushText lit [])
  | [], lit, ScanState.dollar => some (flushText (lit ++ ['$']) [])
  | [], _, ScanState.inside _ => none
  | c :: rest, lit, ScanState.outside =>
    if c = '$' then scanSegments rest lit ScanState.dollar
    else scanSegments rest (lit ++ [c]) ScanState.outside
  | c :: rest, lit, ScanState.dollar =>
    if c = '{' then (scanSegments rest [] (ScanState.inside [])).map (flushText lit)
    else if c = '$' then scanSegments rest (lit ++ ['$']) ScanState.dollar
    else scanSegments rest (lit ++ ['$', c]) ScanState.outside
  | c :: rest, lit, ScanState.inside name =>
    if c = '}' then
      if name.isEmpty then none
      else (scanSegments rest lit ScanState.outside).map
        (fun segs => Segment.placeholder (String.mk name) :: segs)
    else if isIdentChar c then scanSegments rest lit (ScanState.inside (name ++ [c]))
    else none

/-- Names of the placeholders of a list of segments, in order. -/
def segmentNames : List Segment → List String
  | [] => []
  | Segment.text _ :: rest => segmentNames rest
  | Segment.placeholder n :: rest => n :: segmentNames rest

/-- Modelled from the spec: the Template Token Parser of section 4.1 (not among the sources):
no placeholder gives a literal, a field that is one placeholder gives a placeholder, anything
else is mixed; a malformed placeholder is an error with the field path. -/
def parseToken (raw : String) (path : String) : Except RenderError TemplateToken :=
  match scanSegments raw.data [] ScanState.outside with
  | none => Except.error (RenderError.MalformedTemplate path)
  | some segs =>
    match segmentNames segs, segs with
    | [], _ => Except.ok { raw := raw, kind := TokenKind.Literal, placeholderNames := [] }
    | names, [Segment.placeholder _] =>
      Except.ok { raw := raw, kind := TokenKind.Placeholder, placeholderNames := names }
    | names, _ => Except.ok { raw := raw, kind := TokenKind.Mixed, placeholderNames := names }

/-- Modelled from the spec: substitution of every placeholder by its value in the Parameter Set
(the renderer is not among the sources); the first missing name is an error. -/
def substitute (params : ParameterSet) (path : String) :
    List Segment → Except RenderError (List Char)
  | [] => Except.ok []
  | Segment.text s :: rest =>
    match substitute params path rest with
    | Except.error e => Except.error e
    | Except.ok tail => Except.ok (s ++ tail)
  | Segment.placeholder n :: rest =>
    match params.lookup n with
    | none => Except.error (RenderError.UnresolvedParameter n path)
    | some v =>
      match substitute params path rest with
      | Except.error e => Except.error e
      | Except.ok tail => Except.ok (v.data ++ tail)

/-- Value of a string of base-10 digits, most significant first. -/
def digitsValue (acc : Nat) : List Char → Nat
  | [] => acc
  | c :: rest => digitsValue (acc * 10 + (c.toNat - '0'.toNat)) rest

/-- Modelled from the spec: the UInt64 coercion rule of section 4.2 (the renderer is not among
the sources): base-10 digits only, anything else is a type mismatch, a value that does not fit
64 bits is out of range (no truncation). -/
def coerceUInt64 (text : List Char) (path : String) : Except RenderError Nat :=
  if text.isEmpty || !(text.all Char.isDigit) then
    Except.error (RenderError.TypeMismatch path "UInt64" (String.mk text))
  else if digitsValue 0 text < 2 ^ 64 then Except.ok (digitsValue 0 text)
  else Except.error (RenderError.OutOfRange path)

/-- Modelled from the spec: the Template Value Renderer of section 4.2 at type UInt64 (not among
the sources): a literal token is coerced, a placeholder or mixed token is substituted against
the Parameter Set and then coerced. -/
def renderUInt64 (v : UInt64OrTemplate) (params : ParameterSet) (path : String) :
    Except RenderError Nat :=
  match v.token.kind with
  | TokenKind.Literal => coerceUInt64 v.token.raw.data path
  | _ =>
    match scanSegments v.token.raw.data [] ScanState.outside with
    | none => Except.error (RenderError.MalformedTemplate path)
    | some segs =>
      match substitute params path segs with
      | Except.error e => Except.error e
      | Except.ok text => coerceUInt64 text path

/-- Modelled from the spec: rendering of `Deploy.Replicas` of a Service record (the composite
renderer is not among the sources). -/
def renderReplicas (svc : ServiceConfig) (params : ParameterSet) : Except RenderError Nat :=
  renderUInt64 svc.Deploy.Replicas params "deploy.replicas"

/-! ## Definitions used by the proofs -/

/-- Copy of the cell behind a reference into a new cell of the same store: what `result := *s`
followed by `&result` does to one store. -/
def cloneCell {α : Type} (store : List α) : Ptr → Option (List α × Ptr)
  | none => some (store, none)
  | some a =>
    match store[a]? with
    | none => none
    | some v => some (store ++ [v], some store.length)

/-- The heap `g` is `h` with cells added to the spec and status stores and the arrays and maps
of services, secrets and configs kept. -/
def Heap.Grows (h g : Heap ObjectMeta ListMeta) : Prop :=
  (∃ l, g.specs = h.specs ++ l) ∧ (∃ l, g.statuses = h.statuses ++ l) ∧
    g.serviceArrays = h.serviceArrays ∧ g.secretMaps = h.secretMaps ∧
    g.configMaps = h.configMaps

/-- State of the heap after `ix` rounds of the loop of `StackList.DeepCopyObject` started from
the heap `h` on the source array `arr` of the list cell `lc`: the stores of `h` have only grown,
the loop variable and the new list and array are allocated right after the cells of `h`, and
the first `ix` items of the new array have the values of the first `ix` items of `arr`. -/
structure LoopInv (h : Heap ObjectMeta ListMeta) (lc : StackList ListMeta)
    (arr : List (Stack ObjectMeta)) (ix : Nat) (g : Heap ObjectMeta ListMeta) : Prop where
  grows : h.Grows g
  cells : ∃ e, g.stackCells = h.stackCells ++ e ∧ 0 < e.length
  arrays : ∃ D, g.stackArrays = h.stackArrays ++ [D] ∧ D.length = arr.length ∧
    ∀ (i : Nat) (d e : Stack ObjectMeta), i < ix → D[i]? = some d → arr[i]? = some e →
      g.readStackValue d = h.readStackValue e
  lists : ∃ rc, g.stackLists = h.stackLists ++ [rc] ∧ rc.Items = some h.stackArrays.length ∧
    rc.TypeMeta = lc.TypeMeta ∧ rc.ListMeta = lc.ListMeta

/-! ## Example heaps -/

/-- A service record that is zero except for its name. -/
def exampleService (name : String) : ServiceConfig :=
  { (default : ServiceConfig) with Name := name }

/-- A stack that has neither `Spec` nor `Status`. -/
def bareStack : Stack String :=
  { TypeMeta := { Kind := "Stack", APIVersion := "v1beta2" }, ObjectMeta := "bare-stack",
    Spec := none, Status := none }

/-- A stack list whose items are the array at address 0. -/
def pageOne : StackList String :=
  { TypeMeta := { Kind := "StackList", APIVersion := "v1beta2" }, ListMeta := "page-1",
    Items := some 0 }

/-- A heap with one stack that has two services, one secret, no config map and a status whose
phase is none of the three declared phases; one stack list whose two items are a stack that
shares the spec of the first stack and a zero stack; one list without items; and one list whose
items are non-nil and empty. Object and list metadata are plain strings here. -/
def exampleHeap : Heap String String :=
  { stackCells :=
      [{ TypeMeta := { Kind := "Stack", APIVersion := "v1beta2" }, ObjectMeta := "web-stack",
         Spec := some 0, Status := some 0 },
       bareStack],
    specs := [{ Services := some 0, Secrets := some 0, Configs := none }],
    statuses := [{ Phase := "Paused", Message := "waiting" }],
    serviceArrays := [[exampleService "web", exampleService "db"]],
    secretMaps := [[("token", default)]],
    configMaps := [],
    stackArrays :=
      [[{ TypeMeta := { Kind := "Stack", APIVersion := "v1beta2" }, ObjectMeta := "item",
          Spec := some 0, Status := none }, default],
       []],
    stackLists :=
      [pageOne,
       { TypeMeta := { Kind := "StackList", APIVersion := "v1beta2" }, ListMeta := "page-2",
         Items := none },
       { TypeMeta := { Kind := "StackList", APIVersion := "v1beta2" }, ListMeta := "page-3",
         Items := some 1 }] }

/-- A heap whose only stack has one service, one secret and one config, and a status. -/
def sharedHeap : Heap String String :=
  { stackCells :=
      [{ TypeMeta := { Kind := "Stack", APIVersion := "v1beta2" }, ObjectMeta := "web-stack",
         Spec := some 0, Status := some 0 }],
    specs := [{ Services := some 0, Secrets := some 0, Configs := some 0 }],
    statuses := [{ Phase := StackAvailable, Message := "" }],
    serviceArrays := [[exampleService "web"]],
    secretMaps := [[("token", default)]],
    configMaps := [[("settings", default)]],
    stackArrays := [],
    stackLists := [] }

/-- Service record of scenario A: zero except for `Deploy.Replicas`, which holds the token
`tok`. -/
def replicaService (tok : TemplateToken) : ServiceConfig :=
  { (default : ServiceConfig) with
    Deploy := { (default : DeployConfig) with Replicas := { token := tok } } }

end Code

end Templatev1beta2

namespace Templatev1beta2

section Lemmas

variable {ObjectMeta ListMeta : Type} [Inhabited ObjectMeta] [Inhabited ListMeta]

theorem getElem?_append_some {α : Type} (l l2 : List α) (a : Nat) (v : α)
    (hv : l[a]? = some v) : (l ++ l2)[a]? = some v := by
  have ha : a < l.length := (List.getElem?_eq_some.mp hv).1
  rw [List.getElem?_append_left ha]; exact hv

theorem getElem?_append_last {α : Type} (l : List α) (v : α) :
    (l ++ [v])[l.length]? = some v := by
  simp

theorem getElem?_append_cons {α : Type} (l r : List α) (v : α) :
    (l ++ v :: r)[l.length]? = some v := by
  rw [List.getElem?_append_right (Nat.le_refl _)]; simp

theorem set_append_last {α : Type} (l : List α) (v w : α) :
    (l ++ [v]).set l.length w = l ++ [w] := by
  induction l with
  | nil => rfl
  | cons x xs ih => simp [List.set, ih]

theorem StackSpec.clone_eq_cloneCell (h : Heap ObjectMeta ListMeta) (p : Ptr) :
    StackSpec.clone h p =
      match cloneCell h.specs p with
      | none => none
      | some (specs, q) => some ({ h with specs := specs }, q) := by
  cases p with
  | none => rfl
  | some a =>
    simp only [StackSpec.clone, cloneCell]
    cases h.specs[a]? <;> rfl

theorem StackStatus.clone_eq_statusCell (h : Heap ObjectMeta ListMeta) (p : Ptr) :
    StackStatus.clone h p =
      match cloneCell h.statuses p with
      | none => none
      | some (statuses, q) => some ({ h with statuses := statuses }, q) := by
  cases p with
  | none => rfl
  | some a =>
    simp only [StackStatus.clone, cloneCell]
    cases h.statuses[a]? <;> rfl

/-- The heap and the pointer that `clone` returns for an allocated stack, store by store. -/
theorem Stack.clone_of_cell (h : Heap ObjectMeta ListMeta) (a : Nat) (sv : Stack ObjectMeta)
    (hs : h.stackCells[a]? = some sv) :
    Stack.clone h (some a) =
      match cloneCell h.specs sv.Spec, cloneCell h.statuses sv.Status with
      | some (specs, sp), some (statuses, st) =>
        some ({ h with
                stackCells := h.stackCells ++
                  [{ TypeMeta := sv.TypeMeta, ObjectMeta := sv.ObjectMeta, Spec := sp,
                     Status := st }],
                specs := specs, statuses := statuses }, some h.stackCells.length)
      | _, _ => none := by
  have hs2 : ∀ w, (h.stackCells ++ [w])[a]? = some sv :=
    fun w => getElem?_append_some _ _ _ _ hs
  simp only [Stack.clone, Heap.newStack, Heap.setStack, StackSpec.clone_eq_cloneCell, StackStatus.clone_eq_statusCell,
    getElem?_append_last, set_append_last, hs2, Option.bind_eq_bind, Option.some_bind]
  rcases hsp : cloneCell h.specs sv.Spec with _ | ⟨specs, sp⟩
  · simp
  · rcases hst : cloneCell h.statuses sv.Status with _ | ⟨statuses, st⟩
    · simp [getElem?_append_last, set_append_last, hs2, hst]
    · simp [getElem?_append_last, set_append_last, hs2, hst]

theorem readRef_append {α : Type} (s l : List α) (p : Ptr) (hv : (readRef s p).isSome = true) :
    readRef (s ++ l) p = readRef s p := by
  cases p with
  | none => rfl
  | some a =>
    simp only [readRef] at hv ⊢
    rcases hsa : s[a]? with _ | v
    · simp [hsa] at hv
    · rw [getElem?_append_some s l a v hsa]

theorem readRef_cloneCell {α : Type} (s s2 : List α) (p q : Ptr)
    (hc : cloneCell s p = some (s2, q)) :
    readRef s2 q = readRef s p ∧ (p = none ↔ q = none) ∧ (∃ l, s2 = s ++ l) ∧
      (∀ m, q = some m → m = s.length) := by
  cases p with
  | none =>
    simp only [cloneCell, Option.some.injEq, Prod.mk.injEq] at hc
    obtain ⟨rfl, rfl⟩ := hc
    exact ⟨rfl, by simp, ⟨[], by simp⟩, by simp⟩
  | some a =>
    simp only [cloneCell] at hc
    rcases hsa : s[a]? with _ | v
    · simp [hsa] at hc
    · simp only [hsa, Option.some.injEq, Prod.mk.injEq] at hc
      obtain ⟨rfl, rfl⟩ := hc
      refine ⟨?_, by simp, ⟨[v], rfl⟩, by simp⟩
      simp [readRef, hsa]

theorem cloneCell_isSome {α : Type} (s : List α) (p : Ptr) (hv : (readRef s p).isSome = true) :
    ∃ s2 q, cloneCell s p = some (s2, q) := by
  cases p with
  | none => exact ⟨s, none, rfl⟩
  | some a =>
    simp only [readRef] at hv
    rcases hsa : s[a]? with _ | v
    · simp [hsa] at hv
    · exact ⟨s ++ [v], some s.length, by simp [cloneCell, hsa]⟩

/-- The spec value is a function of the spec cell and of the arrays and maps. -/
theorem Heap.readSpec_congr (h g : Heap ObjectMeta ListMeta) (p q : Ptr)
    (hs : readRef g.specs q = readRef h.specs p)
    (h1 : g.serviceArrays = h.serviceArrays) (h2 : g.secretMaps = h.secretMaps)
    (h3 : g.configMaps = h.configMaps) : g.readSpec q = h.readSpec p := by
  cases p <;> cases q <;> simp only [readRef, Heap.readSpec] at hs ⊢
  · rename_i b
    cases hb : g.specs[b]? <;> simp [hb] at hs
  · rename_i a
    cases ha : h.specs[a]? <;> simp [ha] at hs
  · rename_i a b
    rcases ha : h.specs[a]? with _ | c <;> rcases hb : g.specs[b]? with _ | d <;>
      simp [ha, hb] at hs ⊢
    subst hs
    rw [h1, h2, h3]

theorem Heap.readSpec_isSome (h : Heap ObjectMeta ListMeta) (p : Ptr)
    (hv : (h.readSpec p).isSome = true) : (readRef h.specs p).isSome = true := by
  cases p with
  | none => rfl
  | some a =>
    simp only [Heap.readSpec, readRef] at hv ⊢
    cases ha : h.specs[a]? <;> simp [ha] at hv ⊢

/-- The stack value is a function of the record, the spec value and the status cell. -/
theorem Heap.readStackValue_congr (h g : Heap ObjectMeta ListMeta) (c d : Stack ObjectMeta)
    (h1 : d.TypeMeta = c.TypeMeta) (h2 : d.ObjectMeta = c.ObjectMeta)
    (h3 : g.readSpec d.Spec = h.readSpec c.Spec)
    (h4 : readRef g.statuses d.Status = readRef h.statuses c.Status) :
    g.readStackValue d = h.readStackValue c := by
  simp only [Heap.readStackValue, h1, h2, h3, h4]

theorem Heap.readStackValue_isSome (h : Heap ObjectMeta ListMeta) (c : Stack ObjectMeta)
    (hv : (h.readStackValue c).isSome = true) :
    (h.readSpec c.Spec).isSome = true ∧ (readRef h.statuses c.Status).isSome = true := by
  simp only [Heap.readStackValue] at hv
  cases h1 : h.readSpec c.Spec <;> cases h2 : readRef h.statuses c.Status <;>
    simp [h1, h2] at hv ⊢

theorem Heap.Grows.refl (h : Heap ObjectMeta ListMeta) : h.Grows h :=
  ⟨⟨[], by simp⟩, ⟨[], by simp⟩, rfl, rfl, rfl⟩

theorem Heap.Grows.trans {h g k : Heap ObjectMeta ListMeta} (h1 : h.Grows g) (h2 : g.Grows k) :
    h.Grows k := by
  obtain ⟨⟨l1, e1⟩, ⟨l2, e2⟩, e3, e4, e5⟩ := h1
  obtain ⟨⟨m1, f1⟩, ⟨m2, f2⟩, f3, f4, f5⟩ := h2
  exact ⟨⟨l1 ++ m1, by rw [f1, e1, List.append_assoc]⟩,
    ⟨l2 ++ m2, by rw [f2, e2, List.append_assoc]⟩, f3.trans e3, f4.trans e4, f5.trans e5⟩

/-- Adding cells keeps the value of every record that could be read before. -/
theorem Heap.Grows.readStackValue {h g : Heap ObjectMeta ListMeta} (hg : h.Grows g)
    (c : Stack ObjectMeta) (hv : (h.readStackValue c).isSome = true) :
    g.readStackValue c = h.readStackValue c := by
  obtain ⟨⟨l1, e1⟩, ⟨l2, e2⟩, e3, e4, e5⟩ := hg
  obtain ⟨v1, v2⟩ := h.readStackValue_isSome c hv
  refine Heap.readStackValue_congr h g c c rfl rfl ?_ ?_
  · refine Heap.readSpec_congr h g _ _ ?_ e3 e4 e5
    rw [e1]; exact readRef_append _ _ _ (h.readSpec_isSome _ v1)
  · rw [e2]; exact readRef_append _ _ _ v2

/-- What `clone` does for a stack cell whose value can be read: it succeeds, adds one stack
cell whose value is that of the receiver, and only adds cells to the other stores. -/
theorem Stack.clone_spec (h : Heap ObjectMeta ListMeta) (a : Nat) (sv : Stack ObjectMeta)
    (hs : h.stackCells[a]? = some sv) (hv : (h.readStackValue sv).isSome = true) :
    ∃ g cv, Stack.clone h (some a) = some (g, some h.stackCells.length) ∧
      g.stackCells = h.stackCells ++ [cv] ∧ h.Grows g ∧
      g.stackArrays = h.stackArrays ∧ g.stackLists = h.stackLists ∧
      g.readStackValue cv = h.readStackValue sv ∧
      cv.TypeMeta = sv.TypeMeta ∧ cv.ObjectMeta = sv.ObjectMeta ∧
      (sv.Spec = none ↔ cv.Spec = none) ∧ (sv.Status = none ↔ cv.Status = none) := by
  obtain ⟨v1, v2⟩ := h.readStackValue_isSome sv hv
  obtain ⟨specs, sp, hsp⟩ := cloneCell_isSome h.specs sv.Spec (h.readSpec_isSome _ v1)
  obtain ⟨statuses, st, hst⟩ := cloneCell_isSome h.statuses sv.Status v2
  obtain ⟨r1, n1, x1, -⟩ := readRef_cloneCell _ _ _ _ hsp
  obtain ⟨r2, n2, x2, -⟩ := readRef_cloneCell _ _ _ _ hst
  refine ⟨{ h with
      stackCells := h.stackCells ++
        [{ TypeMeta := sv.TypeMeta, ObjectMeta := sv.ObjectMeta, Spec := sp, Status := st }],
      specs := specs, statuses := statuses },
    { TypeMeta := sv.TypeMeta, ObjectMeta := sv.ObjectMeta, Spec := sp, Status := st },
    ?_, rfl, ⟨x1, x2, rfl, rfl, rfl⟩, rfl, rfl, ?_, rfl, rfl, n1, n2⟩
  · rw [Stack.clone_of_cell h a sv hs, hsp, hst]
  · exact Heap.readStackValue_congr h _ sv _ rfl rfl
      (Heap.readSpec_congr h _ _ _ r1 rfl rfl rfl) r2

theorem Heap.readStack_cell (h : Heap ObjectMeta ListMeta) (a : Nat)
    (hv : (h.readStack (some a)).isSome = true) :
    ∃ sv, h.stackCells[a]? = some sv ∧ (h.readStackValue sv).isSome = true ∧
      h.readStack (some a) = (h.readStackValue sv).map some := by
  simp only [Heap.readStack] at hv ⊢
  rcases ha : h.stackCells[a]? with _ | sv
  · simp [ha] at hv
  · refine ⟨sv, rfl, ?_, ?_⟩ <;> cases hr : h.readStackValue sv <;> simp [ha, hr] at hv ⊢

theorem Heap.readStack_of_cell (h : Heap ObjectMeta ListMeta) (a : Nat) (sv : Stack ObjectMeta)
    (hs : h.stackCells[a]? = some sv) :
    h.readStack (some a) = (h.readStackValue sv).map some := by
  simp only [Heap.readStack, hs]
  cases h.readStackValue sv <;> rfl

/-- Adding cells keeps the value of every stack that could be read before. -/
theorem Heap.Grows.readStack {h g : Heap ObjectMeta ListMeta} (hg : h.Grows g)
    (hc : ∃ l, g.stackCells = h.stackCells ++ l) (p : Ptr)
    (hv : (h.readStack p).isSome = true) : g.readStack p = h.readStack p := by
  cases p with
  | none => rfl
  | some a =>
    obtain ⟨sv, hs, hr, he⟩ := h.readStack_cell a hv
    obtain ⟨l, hl⟩ := hc
    have hs2 : g.stackCells[a]? = some sv := by rw [hl]; exact getElem?_append_some _ _ _ _ hs
    rw [he, g.readStack_of_cell a sv hs2, hg.readStackValue sv hr]

/-- Clone of a stack of the heap: it returns, the clone has the value of the receiver, and every
stack of the heap keeps its value. -/
theorem Stack.clone_value (h : Heap ObjectMeta ListMeta) (x : Ptr)
    (hx : (h.readStack x).isSome = true) :
    ∃ g c, Stack.clone h x = some (g, c) ∧ g.readStack c = h.readStack x ∧
      (x = none ↔ c = none) ∧
      (∀ p, (h.readStack p).isSome = true → g.readStack p = h.readStack p) := by
  cases x with
  | none => exact ⟨h, none, rfl, rfl, Iff.rfl, fun _ _ => rfl⟩
  | some a =>
    obtain ⟨sv, hs, hr, he⟩ := h.readStack_cell a hx
    obtain ⟨g, cv, hcl, hcells, hgrow, -, -, hval, -⟩ := Stack.clone_spec h a sv hs hr
    refine ⟨g, some h.stackCells.length, hcl, ?_, by simp, ?_⟩
    · have hc : g.stackCells[h.stackCells.length]? = some cv := by
        rw [hcells]; exact getElem?_append_last _ _
      rw [g.readStack_of_cell _ cv hc, he, hval]
    · exact fun p hp => hgrow.readStack ⟨[cv], hcells⟩ p hp

/-- Two stack cells with the same metadata whose spec and status cells hold the same content,
over the same arrays and maps, have the same value. -/
theorem Heap.readStack_eq_of_cells (h g : Heap ObjectMeta ListMeta) (a a2 : Nat)
    (sv sv2 : Stack ObjectMeta) (b b2 t t2 : Nat)
    (hs : h.stackCells[a]? = some sv) (hs2 : g.stackCells[a2]? = some sv2)
    (m1 : sv2.TypeMeta = sv.TypeMeta) (m2 : sv2.ObjectMeta = sv.ObjectMeta)
    (p1 : sv.Spec = some b) (p2 : sv2.Spec = some b2) (q1 : sv.Status = some t)
    (q2 : sv2.Status = some t2) (e1 : g.specs[b2]? = h.specs[b]?)
    (e2 : g.statuses[t2]? = h.statuses[t]?) (e3 : g.serviceArrays = h.serviceArrays)
    (e4 : g.secretMaps = h.secretMaps) (e5 : g.configMaps = h.configMaps) :
    g.readStack (some a2) = h.readStack (some a) := by
  rw [g.readStack_of_cell a2 sv2 hs2, h.readStack_of_cell a sv hs]
  congr 1
  refine Heap.readStackValue_congr h g sv sv2 m1 m2 ?_ ?_
  · refine Heap.readSpec_congr h g _ _ ?_ e3 e4 e5
    rw [p1, p2]; simp only [readRef, e1]
  · rw [q1, q2]; simp only [readRef, e2]

/-- Clone of a stack cell whose `Spec` and `Status` are both allocated: the three new cells. -/
theorem Stack.clone_present (h : Heap ObjectMeta ListMeta) (a b t : Nat)
    (sv : Stack ObjectMeta) (sc : StackSpec) (tc : StackStatus)
    (hs : h.stackCells[a]? = some sv) (hb : sv.Spec = some b) (ht : sv.Status = some t)
    (hsc : h.specs[b]? = some sc) (htc : h.statuses[t]? = some tc) :
    ∃ g cv, Stack.clone h (some a) = some (g, some h.stackCells.length) ∧
      g.stackCells = h.stackCells ++ [cv] ∧ g.specs = h.specs ++ [sc] ∧
      g.statuses = h.statuses ++ [tc] ∧ g.serviceArrays = h.serviceArrays ∧
      g.secretMaps = h.secretMaps ∧ g.configMaps = h.configMaps ∧
      cv.TypeMeta = sv.TypeMeta ∧ cv.ObjectMeta = sv.ObjectMeta ∧
      cv.Spec = some h.specs.length ∧ cv.Status = some h.statuses.length := by
  have hcl := Stack.clone_of_cell h a sv hs
  simp only [hb, ht, cloneCell, hsc, htc] at hcl
  exact ⟨_, _, hcl, rfl, rfl, rfl, rfl, rfl, rfl, rfl, rfl, rfl, rfl⟩

theorem Heap.Grows.of_eq {h g : Heap ObjectMeta ListMeta} (e1 : g.specs = h.specs)
    (e2 : g.statuses = h.statuses) (e3 : g.serviceArrays = h.serviceArrays)
    (e4 : g.secretMaps = h.secretMaps) (e5 : g.configMaps = h.configMaps) : h.Grows g :=
  ⟨⟨[], by simp [e1]⟩, ⟨[], by simp [e2]⟩, e3, e4, e5⟩

/-- The loop runs to its end and keeps its invariant. -/
theorem StackList.cloneItems_spec (h : Heap ObjectMeta ListMeta) (lc : StackList ListMeta)
    (arr : List (Stack ObjectMeta)) (src : Nat) (hsrc : h.stackArrays[src]? = some arr)
    (hval : ∀ (i : Nat) (e : Stack ObjectMeta), arr[i]? = some e →
      (h.readStackValue e).isSome = true) :
    ∀ n ix g, ix + n = arr.length → LoopInv h lc arr ix g →
      ∃ g2, StackList.cloneItems src h.stackLists.length h.stackCells.length n ix g = some g2 ∧
        LoopInv h lc arr arr.length g2 := by
  intro n
  induction n with
  | zero =>
    intro ix g hn hinv
    obtain rfl : ix = arr.length := by omega
    exact ⟨g, rfl, hinv⟩
  | succ n ih =>
    intro ix g hn hinv
    obtain ⟨hgrow, ⟨e, hcells, he⟩, ⟨D, harr, hD, hitems⟩, ⟨rc, hlists, hrc⟩⟩ := hinv
    have hix : ix < arr.length := by omega
    obtain ⟨elem, helem⟩ : ∃ elem, arr[ix]? = some elem :=
      ⟨arr[ix], List.getElem?_eq_getElem hix⟩
    have helemv := hval ix elem helem
    have hgsrc : g.stackArrays[src]? = some arr := by
      rw [harr]; exact getElem?_append_some _ _ _ _ hsrc
    obtain ⟨e0, erest, rfl⟩ : ∃ e0 erest, e = e0 :: erest := by
      cases e with
      | nil => simp at he
      | cons e0 erest => exact ⟨e0, erest, rfl⟩
    have hvar : g.stackCells[h.stackCells.length]? = some e0 := by
      rw [hcells]; exact getElem?_append_cons _ _ _
    -- the loop variable receives the element
    generalize hg1 : ({ g with stackCells := g.stackCells.set h.stackCells.length elem } :
      Heap ObjectMeta ListMeta) = g1
    have hg1cells : g1.stackCells = h.stackCells ++ elem :: erest := by
      subst hg1; simp [hcells]
    have hgrow1 : g.Grows g1 := by subst hg1; exact Heap.Grows.of_eq rfl rfl rfl rfl rfl
    have hvar1 : g1.stackCells[h.stackCells.length]? = some elem := by
      rw [hg1cells]; exact getElem?_append_cons _ _ _
    have hread1 : g1.readStackValue elem = h.readStackValue elem :=
      (hgrow.trans hgrow1).readStackValue elem helemv
    obtain ⟨g2, cv, hcl, hcells2, hgrow2, harr2, hlists2, hval2, -⟩ :=
      Stack.clone_spec g1 h.stackCells.length elem hvar1 (by rw [hread1]; exact helemv)
    have hcv : g2.stackCells[g1.stackCells.length]? = some cv := by
      rw [hcells2]; exact getElem?_append_last _ _
    have hg1arr : g1.stackArrays = h.stackArrays ++ [D] := by subst hg1; exact harr
    have hg1lists : g1.stackLists = h.stackLists ++ [rc] := by subst hg1; exact hlists
    have hrc2 : g2.stackLists[h.stackLists.length]? = some rc := by
      rw [hlists2, hg1lists]; exact getElem?_append_last _ _
    have hD2 : g2.stackArrays[h.stackArrays.length]? = some D := by
      rw [harr2, hg1arr]; exact getElem?_append_last _ _
    have hixD : ix < D.length := by omega
    generalize hg3 : ({ g2 with
      stackArrays := g2.stackArrays.set h.stackArrays.length (D.set ix cv) } :
      Heap ObjectMeta ListMeta) = g3
    have hgrow3 : g2.Grows g3 := by subst hg3; exact Heap.Grows.of_eq rfl rfl rfl rfl rfl
    have hg_g3 : g.Grows g3 := (hgrow1.trans hgrow2).trans hgrow3
    have hinv3 : LoopInv h lc arr (ix + 1) g3 := by
      refine ⟨hgrow.trans hg_g3, ⟨elem :: erest ++ [cv], ?_, by simp⟩,
        ⟨D.set ix cv, ?_, by simpa using hD, ?_⟩, ⟨rc, ?_, hrc⟩⟩
      · subst hg3; simp [hcells2, hg1cells]
      · subst hg3; simp only [harr2, hg1arr]; exact set_append_last _ _ _
      · intro i d e2 hi hd he2
        by_cases hlt : i < ix
        · have hd2 : D[i]? = some d := by
            rw [← hd, List.getElem?_set_ne (Nat.ne_of_gt hlt)]
          have hold := hitems i d e2 hlt hd2 he2
          rw [← hold]
          exact hg_g3.readStackValue d (by rw [hold]; exact hval i e2 he2)
        · obtain rfl : i = ix := by omega
          have hd2 : d = cv := by
            rw [List.getElem?_set_self hixD] at hd; exact (Option.some.inj hd).symm
          have he3 : e2 = elem := Option.some.inj (he2.symm.trans helem)
          subst hd2 he3
          rw [hgrow3.readStackValue d (by rw [hval2, hread1]; exact helemv), hval2, hread1]
      · subst hg3; simp [hlists2, hg1lists]
    obtain ⟨gF, hrun, hF⟩ := ih (ix + 1) g3 (by omega) hinv3
    refine ⟨gF, ?_, hF⟩
    rw [← hrun]
    simp only [StackList.cloneItems, hgsrc, helem, Heap.setStack, hvar, Option.bind_eq_bind,
      Option.some_bind, hg1, hcl, hcv, hrc2, hrc.1, hD2, hixD, if_true, hg3]

theorem Heap.readStackValues_isSome (h : Heap ObjectMeta ListMeta) :
    ∀ (arr : List (Stack ObjectMeta)), (h.readStackValues arr).isSome = true →
      ∀ (i : Nat) (e : Stack ObjectMeta), arr[i]? = some e →
        (h.readStackValue e).isSome = true := by
  intro arr
  induction arr with
  | nil => intro _ i e he; simp at he
  | cons c cs ih =>
    intro hv i e he
    simp only [Heap.readStackValues] at hv
    rcases hc : h.readStackValue c with _ | v
    · simp [hc] at hv
    · rcases hcs : h.readStackValues cs with _ | vs
      · simp [hc, hcs] at hv
      · cases i with
        | zero =>
          simp only [List.getElem?_cons_zero, Option.some.injEq] at he
          subst he; simp [hc]
        | succ i =>
          simp only [List.getElem?_cons_succ] at he
          exact ih (by simp [hcs]) i e he

/-- Two arrays of the same length whose records have the same values item by item have the same
list of values. -/
theorem Heap.readStackValues_congr (h g : Heap ObjectMeta ListMeta) :
    ∀ (D arr : List (Stack ObjectMeta)), D.length = arr.length →
      (∀ (i : Nat) (d e : Stack ObjectMeta), D[i]? = some d → arr[i]? = some e →
        g.readStackValue d = h.readStackValue e) →
      g.readStackValues D = h.readStackValues arr := by
  intro D
  induction D with
  | nil =>
    intro arr hlen _
    cases arr with
    | nil => rfl
    | cons _ _ => simp at hlen
  | cons d ds ih =>
    intro arr hlen hpt
    cases arr with
    | nil => simp at hlen
    | cons e es =>
      have h0 := hpt 0 d e (by simp) (by simp)
      have h1 := ih es (by simpa using hlen)
        (fun i d2 e2 hd he => hpt (i + 1) d2 e2 (by simpa using hd) (by simpa using he))
      simp only [Heap.readStackValues, h0, h1]

/-- Adding cells keeps the values of an items slice that could be read before, as long as its
backing array is kept. -/
theorem Heap.Grows.readItems {h g : Heap ObjectMeta ListMeta} (hg : h.Grows g) (src : Nat)
    (arr : List (Stack ObjectMeta)) (hsrc : h.stackArrays[src]? = some arr)
    (hsrc2 : g.stackArrays[src]? = some arr)
    (hv : (h.readItems (some src)).isSome = true) :
    g.readItems (some src) = h.readItems (some src) := by
  simp only [Heap.readItems, hsrc, hsrc2] at hv ⊢
  have hvs : (h.readStackValues arr).isSome = true := by
    cases hr : h.readStackValues arr <;> simp [hr] at hv ⊢
  have := h.readStackValues_isSome arr hvs
  rw [Heap.readStackValues_congr h g arr arr rfl
    (fun i d e hd he => by
      obtain rfl : d = e := Option.some.inj (hd.symm.trans he)
      exact hg.readStackValue d (this i d hd))]

theorem Heap.readStackList_cell (h : Heap ObjectMeta ListMeta) (a : Nat)
    (hv : (h.readStackList (some a)).isSome = true) :
    ∃ lc, h.stackLists[a]? = some lc ∧ (h.readItems lc.Items).isSome = true := by
  simp only [Heap.readStackList] at hv
  rcases ha : h.stackLists[a]? with _ | lc
  · simp [ha] at hv
  · refine ⟨lc, rfl, ?_⟩
    cases hr : h.readItems lc.Items <;> simp [ha, hr] at hv ⊢

theorem Heap.readItems_array (h : Heap ObjectMeta ListMeta) (src : Nat)
    (hv : (h.readItems (some src)).isSome = true) :
    ∃ arr, h.stackArrays[src]? = some arr ∧ (h.readStackValues arr).isSome = true := by
  simp only [Heap.readItems] at hv
  rcases ha : h.stackArrays[src]? with _ | arr
  · simp [ha] at hv
  · refine ⟨arr, rfl, ?_⟩
    cases hr : h.readStackValues arr <;> simp [ha, hr] at hv ⊢

/-- Run of `StackList.DeepCopyObject` on a list cell without items: the new cell. -/
theorem StackList.deepCopy_nilItems (h : Heap ObjectMeta ListMeta) (a : Nat)
    (lc : StackList ListMeta) (hl : h.stackLists[a]? = some lc) (hi : lc.Items = none) :
    StackList.DeepCopyObject h (some a) =
      some ({ h with stackLists := h.stackLists ++
          [{ TypeMeta := lc.TypeMeta, ListMeta := lc.ListMeta, Items := none }] },
        Object.stackList (some h.stackLists.length)) := by
  have hl2 : ∀ w, (h.stackLists ++ [w])[a]? = some lc :=
    fun w => getElem?_append_some _ _ _ _ hl
  simp only [StackList.DeepCopyObject, Heap.setStackList, getElem?_append_last, set_append_last,
    hl2, Option.bind_eq_bind, Option.some_bind, hi]
  rfl

/-- Run of `StackList.DeepCopyObject` on a list cell with items: it returns the new list cell and the
loop invariant holds at the end of the array. -/
theorem StackList.deepCopy_spec (h : Heap ObjectMeta ListMeta) (a src : Nat)
    (lc : StackList ListMeta) (arr : List (Stack ObjectMeta))
    (hl : h.stackLists[a]? = some lc) (hi : lc.Items = some src)
    (hsrc : h.stackArrays[src]? = some arr)
    (hval : ∀ (i : Nat) (e : Stack ObjectMeta), arr[i]? = some e →
      (h.readStackValue e).isSome = true) :
    ∃ g, StackList.DeepCopyObject h (some a) =
        some (g, Object.stackList (some h.stackLists.length)) ∧
      LoopInv h lc arr arr.length g := by
  have hl2 : ∀ w, (h.stackLists ++ [w])[a]? = some lc :=
    fun w => getElem?_append_some _ _ _ _ hl
  have hinv : LoopInv h lc arr 0
      { h with
        stackCells := h.stackCells ++ [default],
        stackArrays := h.stackArrays ++ [List.replicate arr.length default],
        stackLists := h.stackLists ++
          [{ TypeMeta := lc.TypeMeta, ListMeta := lc.ListMeta,
             Items := some h.stackArrays.length }] } :=
    ⟨Heap.Grows.of_eq rfl rfl rfl rfl rfl, ⟨[default], rfl, by simp⟩,
      ⟨List.replicate arr.length default, rfl, by simp, fun i d e hi => by omega⟩,
      ⟨_, rfl, rfl, rfl, rfl⟩⟩
  obtain ⟨g, hrun, hg⟩ := StackList.cloneItems_spec h lc arr src hsrc hval arr.length 0 _
    (by omega) hinv
  refine ⟨g, ?_, hg⟩
  simp only [StackList.DeepCopyObject, Heap.setStackList, getElem?_append_last, set_append_last,
    hl2, Option.bind_eq_bind, Option.some_bind, hi, hsrc, Heap.newStack]
  rw [hrun]
  rfl

theorem takeWhile_ne_append {l r : List Char} (x : Char) (hl : x ∉ l) :
    (l ++ x :: r).takeWhile (fun ch => ch != x) = l := by
  induction l with
  | nil => simp [List.takeWhile]
  | cons c cs ih =>
    have hc : (c != x) = true := by
      simp only [bne_iff_ne, ne_eq]; exact fun hcx => hl (by simp [hcx])
    have hcs : x ∉ cs := fun hmem => hl (by simp [hmem])
    rw [List.cons_append, List.takeWhile_cons, hc, if_pos rfl, ih hcs]

theorem dropWhile_ne_append {l r : List Char} (x : Char) (hl : x ∉ l) :
    (l ++ x :: r).dropWhile (fun ch => ch != x) = x :: r := by
  induction l with
  | nil => simp [List.dropWhile]
  | cons c cs ih =>
    have hc : (c != x) = true := by
      simp only [bne_iff_ne, ne_eq]; exact fun hcx => hl (by simp [hcx])
    have hcs : x ∉ cs := fun hmem => hl (by simp [hmem])
    rw [List.cons_append, List.dropWhile_cons, hc, if_pos rfl, ih hcs]

/-- A group and a version without `/`, the group not empty, parse back from `group/version`. -/
theorem ParseGroupVersion_join (G V : String) (hG : '/' ∉ G.data) (hV : '/' ∉ V.data)
    (hne : G.length > 0) :
    ParseGroupVersion (G ++ "/" ++ V) = some { Group := G, Version := V } := by
  have hdata : (G ++ "/" ++ V).data = G.data ++ '/' :: V.data := by
    simp [String.data_append]
  have hGl : 0 < G.data.length := hne
  have hlen : ¬ ((G ++ "/" ++ V).length = 0) := by
    show ¬ ((G ++ "/" ++ V).data.length = 0)
    rw [hdata]; simp
  have hslash : ¬ (G ++ "/" ++ V = "/") := by
    intro hcon
    have := congrArg (fun t : String => t.data.length) hcon
    simp only [hdata] at this
    simp at this
    omega
  have hcount : (G ++ "/" ++ V).data.count '/' = 1 := by
    rw [hdata, List.count_append, List.count_cons_self, List.count_eq_zero.mpr hG,
      List.count_eq_zero.mpr hV]
  have hcond : ((G ++ "/" ++ V).length == 0 || G ++ "/" ++ V == "/") = false := by
    rw [beq_eq_false_iff_ne.mpr hlen, beq_eq_false_iff_ne.mpr hslash]; rfl
  simp only [ParseGroupVersion, hcount, hcond, Bool.false_eq_true, if_false]
  rw [hdata, takeWhile_ne_append '/' hG, dropWhile_ne_append '/' hG]
  rfl

/-- A version without `/` parses back as a version without group. -/
theorem ParseGroupVersion_version (V : String) (hV : '/' ∉ V.data) :
    ParseGroupVersion V = some { Group := "", Version := V } := by
  by_cases hlen : V.length = 0
  · have hVe : V = "" := by
      apply String.ext
      exact List.length_eq_zero.mp hlen
    subst hVe
    rfl
  · have hslash : ¬ (V = "/") := by
      intro hcon; subst hcon; exact hV (by decide)
    have hcond : (V.length == 0 || V == "/") = false := by
      rw [beq_eq_false_iff_ne.mpr hlen, beq_eq_false_iff_ne.mpr hslash]; rfl
    simp only [ParseGroupVersion, hcond, Bool.false_eq_true, if_false,
      List.count_eq_zero.mpr hV]

/-- A list cell kept as it was, over items with the value they had, has the value it had. -/
theorem Heap.readStackList_eq_of_cell (h g : Heap ObjectMeta ListMeta) (a : Nat)
    (lc : StackList ListMeta) (h1 : h.stackLists[a]? = some lc)
    (h2 : g.stackLists[a]? = some lc) (h3 : g.readItems lc.Items = h.readItems lc.Items) :
    g.readStackList (some a) = h.readStackList (some a) := by
  simp only [Heap.readStackList, h1, h2, h3]

end Lemmas

/-! ## Claims about `Clone` and `DeepCopyObject` of a stack -/

section Claims

variable {ObjectMeta ListMeta : Type} [Inhabited ObjectMeta] [Inhabited ListMeta]

/-- C2: for every stack `x` of the heap, `Clone(Clone(x)) == Clone(x) == x` by value: both
clones return, and the value read back from the clone of the clone, from the clone and from `x`
is one and the same tree `v` (kind, API version, object metadata, services in order, secrets,
configs with their template leaves as they were, and the status with whatever phase string it
holds); `x` keeps that value. -/
theorem clone_clone_eq_clone_eq_self (h : Heap ObjectMeta ListMeta) (x : Ptr)
    (hx : h.ValidStack x) :
    ∃ h1 c h2 c2 v, Stack.Clone h x = some (h1, c) ∧ Stack.Clone h1 c = some (h2, c2) ∧
      h.readStack x = some v ∧ h1.readStack c = some v ∧ h2.readStack c2 = some v ∧
      h2.readStack c = some v ∧ h2.readStack x = some v := by
  obtain ⟨h1, c, e1, v1, -, f1⟩ := Stack.clone_value h x hx
  have hc : (h1.readStack c).isSome = true := by rw [v1]; exact hx
  obtain ⟨h2, c2, e2, v2, -, f2⟩ := Stack.clone_value h1 c hc
  obtain ⟨v, hv⟩ := Option.isSome_iff_exists.mp hx
  refine ⟨h1, c, h2, c2, v, e1, e2, hv, ?_, ?_, ?_, ?_⟩
  · rw [v1, hv]
  · rw [v2, v1, hv]
  · rw [f2 c hc, v1, hv]
  · rw [f2 x (by rw [f1 x hx]; exact hx), f1 x hx, hv]

/-- Witness of C2 on the example heap: its first stack, whose phase is `Paused`. -/
theorem clone_clone_eq_clone_eq_self_witness :
    exampleHeap.ValidStack (some 0) ∧
      ∃ h1 c h2 c2 v, Stack.Clone exampleHeap (some 0) = some (h1, c) ∧
        Stack.Clone h1 c = some (h2, c2) ∧
        exampleHeap.readStack (some 0) = some v ∧ h1.readStack c = some v ∧
        h2.readStack c2 = some v ∧ h2.readStack c = some v ∧ h2.readStack (some 0) = some v :=
  ⟨by decide, clone_clone_eq_clone_eq_self exampleHeap (some 0) (by decide)⟩

/-- C3: `Clone` of a nil stack is nil, and for a non-nil stack of the heap the clone is a
non-nil stack whose `Spec` is nil exactly when the original `Spec` is nil and whose `Status` is
nil exactly when the original `Status` is nil. -/
theorem clone_absent_iff_absent (h : Heap ObjectMeta ListMeta) (a : Nat) (sv : Stack ObjectMeta)
    (hs : h.stackCells[a]? = some sv) (hx : h.ValidStack (some a)) :
    Stack.Clone h none = some (h, none) ∧
      ∃ h1 n cv, Stack.Clone h (some a) = some (h1, some n) ∧ h1.stackCells[n]? = some cv ∧
        (cv.Spec = none ↔ sv.Spec = none) ∧ (cv.Status = none ↔ sv.Status = none) := by
  refine ⟨rfl, ?_⟩
  obtain ⟨sv2, hs2, hr, -⟩ := h.readStack_cell a hx
  obtain rfl : sv = sv2 := Option.some.inj (hs.symm.trans hs2)
  obtain ⟨g, cv, hcl, hcells, -, -, -, -, -, -, n1, n2⟩ := Stack.clone_spec h a sv hs hr
  exact ⟨g, h.stackCells.length, cv, hcl, by rw [hcells]; exact getElem?_append_last _ _,
    n1.symm, n2.symm⟩

/-- Witness of C3 on the example heap: its second stack, which has neither `Spec` nor
`Status`. -/
theorem clone_absent_iff_absent_witness :
    exampleHeap.stackCells[1]? = some bareStack ∧ exampleHeap.ValidStack (some 1) ∧
      Stack.Clone exampleHeap none = some (exampleHeap, none) ∧
      ∃ h1 n cv, Stack.Clone exampleHeap (some 1) = some (h1, some n) ∧
        h1.stackCells[n]? = some cv ∧
        (cv.Spec = none ↔ bareStack.Spec = none) ∧
        (cv.Status = none ↔ bareStack.Status = none) :=
  ⟨by decide, by decide,
    clone_absent_iff_absent exampleHeap 1 bareStack (by decide) (by decide)⟩

/-- C5: for a stack `x` of the heap with `Spec` and `Status` present and `c = x.Clone()`, every
assignment to a direct field of the blocks of `c` (`c.Spec.Services`, `c.Spec.Secrets`,
`c.Spec.Configs`, `c.Status.Phase`, `c.Status.Message`) and every replacement of `c.Spec` or
`c.Status` runs and leaves the value of `x` as it was, and the same assignments made through `x`
run and leave the value of `c` as it was. -/
theorem clone_blocks_independent (h : Heap ObjectMeta ListMeta) (x : Ptr)
    (hx : h.ValidStack x) (hspec : (h.specOf x).isSome = true)
    (hstatus : (h.statusOf x).isSome = true) :
    ∃ h1 c, Stack.Clone h x = some (h1, c) ∧
      (∀ op : Assign, ∃ h2, h1.assign c op = some h2 ∧ h2.readStack x = h.readStack x ∧
        h2.readStack x = h1.readStack x) ∧
      (∀ op : Assign, ∃ h2, h1.assign x op = some h2 ∧ h2.readStack c = h1.readStack c) := by
  cases x with
  | none => simp [Heap.specOf] at hspec
  | some a =>
    obtain ⟨sv, hs, hr, -⟩ := h.readStack_cell a hx
    obtain ⟨b, hb⟩ : ∃ b, sv.Spec = some b := by
      simpa [Heap.specOf, hs, Option.isSome_iff_exists] using hspec
    obtain ⟨t, ht⟩ : ∃ t, sv.Status = some t := by
      simpa [Heap.statusOf, hs, Option.isSome_iff_exists] using hstatus
    obtain ⟨v1, v2⟩ := h.readStackValue_isSome sv hr
    have v1b := h.readSpec_isSome _ v1
    rw [hb] at v1b
    rw [ht] at v2
    obtain ⟨sc, hsc⟩ : ∃ sc, h.specs[b]? = some sc := by
      cases hc : h.specs[b]? <;> simp [readRef, hc] at v1b ⊢
    obtain ⟨tc, htc⟩ : ∃ tc, h.statuses[t]? = some tc := by
      cases hc : h.statuses[t]? <;> simp [readRef, hc] at v2 ⊢
    have la : a < h.stackCells.length := (List.getElem?_eq_some.mp hs).1
    have lb : b < h.specs.length := (List.getElem?_eq_some.mp hsc).1
    have lt : t < h.statuses.length := (List.getElem?_eq_some.mp htc).1
    obtain ⟨h1, cv, hcl, g1, g2, g3, g4, g5, g6, m1, m2, p1, p2⟩ :=
      Stack.clone_present h a b t sv sc tc hs hb ht hsc htc
    have ca : h1.stackCells[a]? = some sv := by rw [g1]; exact getElem?_append_some _ _ _ _ hs
    have cn : h1.stackCells[h.stackCells.length]? = some cv := by
      rw [g1]; exact getElem?_append_last _ _
    have sb : h1.specs[b]? = some sc := by rw [g2]; exact getElem?_append_some _ _ _ _ hsc
    have sn : h1.specs[h.specs.length]? = some sc := by rw [g2]; exact getElem?_append_last _ _
    have tb : h1.statuses[t]? = some tc := by rw [g3]; exact getElem?_append_some _ _ _ _ htc
    have tn : h1.statuses[h.statuses.length]? = some tc := by
      rw [g3]; exact getElem?_append_last _ _
    refine ⟨h1, _, hcl, ?_, ?_⟩
    · have key : ∀ g : Heap ObjectMeta ListMeta, g.stackCells[a]? = some sv →
          g.specs[b]? = some sc → g.statuses[t]? = some tc →
          g.serviceArrays = h.serviceArrays → g.secretMaps = h.secretMaps →
          g.configMaps = h.configMaps → g.readStack (some a) = h.readStack (some a) :=
        fun g k1 k2 k3 k4 k5 k6 =>
          Heap.readStack_eq_of_cells h g a a sv sv b b t t hs k1 rfl rfl hb hb ht ht
            (k2.trans hsc.symm) (k3.trans htc.symm) k4 k5 k6
      have hh1 : h1.readStack (some a) = h.readStack (some a) := key h1 ca sb tb g4 g5 g6
      intro op
      cases op <;>
        simp only [Heap.assign, Heap.specOf, Heap.statusOf, Heap.setSpec, Heap.setStatus,
          Heap.setStack, cn, p1, p2, sn, tn] <;>
        refine ⟨_, rfl, ?_⟩ <;> rw [hh1, and_self] <;>
        refine key _ ?_ ?_ ?_ g4 g5 g6 <;>
        simp [List.getElem?_set, ca, sb, tb, Nat.ne_of_gt la, Nat.ne_of_gt lb, Nat.ne_of_gt lt]
    · have key : ∀ g : Heap ObjectMeta ListMeta, g.stackCells[h.stackCells.length]? = some cv →
          g.specs[h.specs.length]? = some sc → g.statuses[h.statuses.length]? = some tc →
          g.serviceArrays = h1.serviceArrays → g.secretMaps = h1.secretMaps →
          g.configMaps = h1.configMaps →
          g.readStack (some h.stackCells.length) = h1.readStack (some h.stackCells.length) :=
        fun g k1 k2 k3 k4 k5 k6 =>
          Heap.readStack_eq_of_cells h1 g _ _ cv cv _ _ _ _ cn k1 rfl rfl p1 p1 p2 p2
            (k2.trans sn.symm) (k3.trans tn.symm) k4 k5 k6
      intro op
      cases op <;>
        simp only [Heap.assign, Heap.specOf, Heap.statusOf, Heap.setSpec, Heap.setStatus,
          Heap.setStack, ca, hb, ht, sb, tb] <;>
        refine ⟨_, rfl, ?_⟩ <;>
        refine key _ ?_ ?_ ?_ rfl rfl rfl <;>
        simp [List.getElem?_set, cn, sn, tn, Nat.ne_of_lt la, Nat.ne_of_lt lb, Nat.ne_of_lt lt]

/-- Witness of C5 on the example heap: its first stack, which has both blocks. -/
theorem clone_blocks_independent_witness :
    exampleHeap.ValidStack (some 0) ∧ (exampleHeap.specOf (some 0)).isSome = true ∧
      (exampleHeap.statusOf (some 0)).isSome = true ∧
      ∃ h1 c, Stack.Clone exampleHeap (some 0) = some (h1, c) ∧
        (∀ op : Assign, ∃ h2, h1.assign c op = some h2 ∧
          h2.readStack (some 0) = exampleHeap.readStack (some 0) ∧
          h2.readStack (some 0) = h1.readStack (some 0)) ∧
        (∀ op : Assign, ∃ h2, h1.assign (some 0) op = some h2 ∧
          h2.readStack c = h1.readStack c) :=
  ⟨by decide, by decide, by decide,
    clone_blocks_independent exampleHeap (some 0) (by decide) (by decide) (by decide)⟩

/-- C6: for a non-nil stack `s` of the heap, `DeepCopyObject` returns what `Clone` returns, as
a `Stack` object: run on the same heap the two give the same heap and pointer, and run one after
the other they give two stacks with the value of `s`. -/
theorem deepCopyObject_is_clone (h : Heap ObjectMeta ListMeta) (s : Nat)
    (hs : h.ValidStack (some s)) :
    ∃ h1 d v, Stack.DeepCopyObject h (some s) = some (h1, Object.stack (some d)) ∧
      Stack.Clone h (some s) = some (h1, some d) ∧
      h.readStack (some s) = some (some v) ∧ h1.readStack (some d) = some (some v) ∧
      ∃ h2 c, Stack.Clone h1 (some s) = some (h2, some c) ∧
        h2.readStack (some c) = some (some v) ∧ h2.readStack (some d) = some (some v) := by
  obtain ⟨h1, c, e1, v1, n1, f1⟩ := Stack.clone_value h (some s) hs
  obtain ⟨d, rfl⟩ : ∃ d, c = some d := by
    cases c with
    | none => exact absurd (n1.mpr rfl) (by simp)
    | some d => exact ⟨d, rfl⟩
  obtain ⟨sv, hcell, hr, he⟩ := h.readStack_cell s hs
  obtain ⟨v, hv⟩ := Option.isSome_iff_exists.mp hr
  have hval : h.readStack (some s) = some (some v) := by rw [he, hv]; rfl
  have hs1 : (h1.readStack (some s)).isSome = true := by rw [f1 _ hs]; exact hs
  obtain ⟨h2, c, e2, v2, n2, f2⟩ := Stack.clone_value h1 (some s) hs1
  obtain ⟨c, rfl⟩ : ∃ c', c = some c' := by
    cases c with
    | none => exact absurd (n2.mpr rfl) (by simp)
    | some c => exact ⟨c, rfl⟩
  refine ⟨h1, d, v, ?_, e1, hval, by rw [v1, hval], h2, c, e2, ?_, ?_⟩
  · simp only [Stack.DeepCopyObject, e1]
  · rw [v2, f1 _ hs, hval]
  · rw [f2 _ (by rw [v1]; exact hs), v1, hval]

/-- Witness of C6 on the example heap: its first stack. -/
theorem deepCopyObject_is_clone_witness :
    exampleHeap.ValidStack (some 0) ∧
      ∃ h1 d v, Stack.DeepCopyObject exampleHeap (some 0) = some (h1, Object.stack (some d)) ∧
        Stack.Clone exampleHeap (some 0) = some (h1, some d) ∧
        exampleHeap.readStack (some 0) = some (some v) ∧
        h1.readStack (some d) = some (some v) ∧
        ∃ h2 c, Stack.Clone h1 (some 0) = some (h2, some c) ∧
          h2.readStack (some c) = some (some v) ∧ h2.readStack (some d) = some (some v) :=
  ⟨by decide, deepCopyObject_is_clone exampleHeap 0 (by decide)⟩

/-! ## Claims about `DeepCopyObject` of a stack list -/

/-- C4: `Clone` is total: for every stack of the heap (nil, with nil `Spec` or `Status`, with nil
services, secrets or configs) `Clone` and `Stack.DeepCopyObject` return a heap and a result, and
for every stack list of the heap (nil, with nil `Items`, with any number of items)
`StackList.DeepCopyObject` returns a heap and a result; no run stops on a nil dereference. -/
theorem clone_total (h : Heap ObjectMeta ListMeta) (s l : Ptr) (hs : h.ValidStack s)
    (hl : h.ValidStackList l) :
    (∃ h1 c, Stack.Clone h s = some (h1, c)) ∧
      (∃ h1 o, Stack.DeepCopyObject h s = some (h1, o)) ∧
      (∃ h1 o, StackList.DeepCopyObject h l = some (h1, o)) := by
  obtain ⟨h1, c, e1, -⟩ := Stack.clone_value h s hs
  refine ⟨⟨h1, c, e1⟩, ⟨h1, Object.stack c, by simp only [Stack.DeepCopyObject, e1]⟩, ?_⟩
  cases l with
  | none => exact ⟨h, Object.nil, rfl⟩
  | some a =>
    obtain ⟨lc, hcell, hitems⟩ := h.readStackList_cell a hl
    rcases hi : lc.Items with _ | src
    · exact ⟨_, _, StackList.deepCopy_nilItems h a lc hcell hi⟩
    · rw [hi] at hitems
      obtain ⟨arr, hsrc, hvs⟩ := h.readItems_array src hitems
      obtain ⟨g, hrun, -⟩ := StackList.deepCopy_spec h a src lc arr hcell hi hsrc
        (h.readStackValues_isSome arr hvs)
      exact ⟨g, _, hrun⟩

/-- Witness of C4 on the example heap: the stack without blocks and the list of two items. -/
theorem clone_total_witness :
    exampleHeap.ValidStack (some 1) ∧ exampleHeap.ValidStackList (some 0) ∧
      (∃ h1 c, Stack.Clone exampleHeap (some 1) = some (h1, c)) ∧
      (∃ h1 o, Stack.DeepCopyObject exampleHeap (some 1) = some (h1, o)) ∧
      (∃ h1 o, StackList.DeepCopyObject exampleHeap (some 0) = some (h1, o)) :=
  ⟨by decide, by decide, clone_total exampleHeap (some 1) (some 0) (by decide) (by decide)⟩

/-- C7: for a non-nil stack list `l` of the heap with non-nil `Items`, `DeepCopyObject` returns
a new `StackList` (another cell than `l`, which is kept as it was) with the same `TypeMeta` and
`ListMeta` and a new items array of the same length; the result has the value of `l`; for every
index the item of the result has the value `v` of the item of `l`, which is the value of every
clone of that item; and `result.Items[i] = other` leaves the cell of `l`, the array of
`l.Items` and the value of `l` read through `l` as they were, as `l.Items[i] = other` leaves
the value of the result. -/
theorem stackList_deepCopy_items (h : Heap ObjectMeta ListMeta) (a src : Nat)
    (lc : StackList ListMeta) (hcell : h.stackLists[a]? = some lc) (hi : lc.Items = some src)
    (hl : h.ValidStackList (some a)) :
    ∃ h1 r rc d D arr,
      StackList.DeepCopyObject h (some a) = some (h1, Object.stackList (some r)) ∧
      h1.stackLists[r]? = some rc ∧ rc.TypeMeta = lc.TypeMeta ∧ rc.ListMeta = lc.ListMeta ∧
      rc.Items = some d ∧ d ≠ src ∧ h.stackArrays[src]? = some arr ∧
      h1.stackArrays[d]? = some D ∧ D.length = arr.length ∧
      h1.readStackList (some r) = h.readStackList (some a) ∧
      r ≠ a ∧ h1.stackLists[a]? = some lc ∧ h1.stackArrays[src]? = some arr ∧
      h1.readStackList (some a) = h.readStackList (some a) ∧
      (∀ (i : Nat) (item : Stack ObjectMeta), arr[i]? = some item →
        ∃ ritem v, D[i]? = some ritem ∧ h1.readStackValue ritem = some v ∧
          h.readStackValue item = some v ∧
          ∀ (k : Heap ObjectMeta ListMeta) (q : Nat), k.stackCells[q]? = some item →
            k.readStackValue item = some v →
            ∃ k2 c, Stack.clone k (some q) = some (k2, some c) ∧
              k2.readStack (some c) = some (some v)) ∧
      (∀ (i : Nat) (other : Stack ObjectMeta), i < D.length →
        ∃ h2, h1.setItem (some r) i other = some h2 ∧ h2.stackArrays[src]? = some arr ∧
          h2.readItems (some src) = h.readItems (some src) ∧
          h2.stackLists[a]? = some lc ∧ h2.readItems lc.Items = h.readItems lc.Items ∧
          h2.readStackList (some a) = h.readStackList (some a)) ∧
      (∀ (i : Nat) (other : Stack ObjectMeta), i < arr.length →
        ∃ h2, h1.setItem (some a) i other = some h2 ∧ h2.stackLists[r]? = some rc ∧
          h2.stackArrays[d]? = some D ∧
          h2.readStackList (some r) = h1.readStackList (some r)) := by
  obtain ⟨lc2, hcell2, hitems⟩ := h.readStackList_cell a hl
  obtain rfl : lc = lc2 := Option.some.inj (hcell.symm.trans hcell2)
  rw [hi] at hitems
  obtain ⟨arr, hsrc, hvs⟩ := h.readItems_array src hitems
  have hval := h.readStackValues_isSome arr hvs
  obtain ⟨g, hrun, hgrow, -, ⟨D, harr, hD, hpt⟩, ⟨rc, hlists, hrcI, hrcT, hrcL⟩⟩ :=
    StackList.deepCopy_spec h a src lc arr hcell hi hsrc hval
  have la : a < h.stackLists.length := (List.getElem?_eq_some.mp hcell).1
  have lsrc : src < h.stackArrays.length := (List.getElem?_eq_some.mp hsrc).1
  have hrc : g.stackLists[h.stackLists.length]? = some rc := by
    rw [hlists]; exact getElem?_append_last _ _
  have hla : g.stackLists[a]? = some lc := by
    rw [hlists]; exact getElem?_append_some _ _ _ _ hcell
  have hDg : g.stackArrays[h.stackArrays.length]? = some D := by
    rw [harr]; exact getElem?_append_last _ _
  have hgsrc : g.stackArrays[src]? = some arr := by
    rw [harr]; exact getElem?_append_some _ _ _ _ hsrc
  have hvalues : g.readStackValues D = h.readStackValues arr :=
    Heap.readStackValues_congr h g D arr hD (fun i d e hd he =>
      hpt i d e (by
        have := (List.getElem?_eq_some.mp he).1
        omega) hd he)
  have hresult : g.readStackList (some h.stackLists.length) = h.readStackList (some a) := by
    simp only [Heap.readStackList, hrc, hcell, hrcI, hi, Heap.readItems, hDg, hsrc, hvalues,
      hrcT, hrcL]
  have hDread : (g.readItems (some h.stackArrays.length)).isSome = true := by
    simp only [Heap.readItems, hDg, hvalues]
    cases hr : h.readStackValues arr <;> simp [hr] at hvs ⊢
  refine ⟨g, h.stackLists.length, rc, h.stackArrays.length, D, arr, hrun, hrc, hrcT, hrcL, hrcI,
    Nat.ne_of_gt lsrc, hsrc, hDg, hD, hresult, Nat.ne_of_gt la, hla, hgsrc, ?_, ?_, ?_, ?_⟩
  · refine Heap.readStackList_eq_of_cell h g a lc hcell hla ?_
    rw [hi]; exact hgrow.readItems src arr hsrc hgsrc hitems
  · intro i item hitem
    have li : i < arr.length := (List.getElem?_eq_some.mp hitem).1
    obtain ⟨v, hv⟩ := Option.isSome_iff_exists.mp (hval i item hitem)
    have lD : i < D.length := by omega
    refine ⟨D[i], v, List.getElem?_eq_getElem lD, ?_, hv, ?_⟩
    · rw [hpt i D[i] item li (List.getElem?_eq_getElem lD) hitem, hv]
    · intro k q hq hkv
      obtain ⟨k2, cv, hcl, hcells, -, -, -, hcval, -⟩ :=
        Stack.clone_spec k q item hq (by rw [hkv]; rfl)
      refine ⟨k2, k.stackCells.length, hcl, ?_⟩
      have hc : k2.stackCells[k.stackCells.length]? = some cv := by
        rw [hcells]; exact getElem?_append_last _ _
      rw [k2.readStack_of_cell _ cv hc, hcval, hkv]; rfl
  · intro i other hlt
    have hset : g.setItem (some h.stackLists.length) i other =
        some { g with stackArrays := g.stackArrays.set h.stackArrays.length (D.set i other) } := by
      simp only [Heap.setItem, Option.bind_eq_bind, Option.some_bind, hrc, hrcI, hDg, hlt,
        if_true]
    have hkeep : ({ g with
        stackArrays := g.stackArrays.set h.stackArrays.length (D.set i other) } :
        Heap ObjectMeta ListMeta).stackArrays[src]? = some arr := by
      simp only [harr, set_append_last]
      exact getElem?_append_some _ _ _ _ hsrc
    have hgrow2 : h.Grows ({ g with
        stackArrays := g.stackArrays.set h.stackArrays.length (D.set i other) } :
        Heap ObjectMeta ListMeta) := hgrow.trans (Heap.Grows.of_eq rfl rfl rfl rfl rfl)
    have hread := hgrow2.readItems src arr hsrc hkeep hitems
    refine ⟨_, hset, hkeep, hread, hla, by rw [hi]; exact hread, ?_⟩
    exact Heap.readStackList_eq_of_cell h _ a lc hcell hla (by rw [hi]; exact hread)
  · intro i other hlt
    have hset : g.setItem (some a) i other =
        some { g with stackArrays := g.stackArrays.set src (arr.set i other) } := by
      simp only [Heap.setItem, Option.bind_eq_bind, Option.some_bind, hla, hi, hgsrc, hlt,
        if_true]
    have hkeep : ({ g with stackArrays := g.stackArrays.set src (arr.set i other) } :
        Heap ObjectMeta ListMeta).stackArrays[h.stackArrays.length]? = some D := by
      show (g.stackArrays.set src (arr.set i other))[h.stackArrays.length]? = some D
      rw [List.getElem?_set_ne (Nat.ne_of_lt lsrc)]; exact hDg
    have hgrow2 : g.Grows ({ g with stackArrays := g.stackArrays.set src (arr.set i other) } :
        Heap ObjectMeta ListMeta) := Heap.Grows.of_eq rfl rfl rfl rfl rfl
    refine ⟨_, hset, hrc, hkeep, ?_⟩
    refine Heap.readStackList_eq_of_cell g _ _ rc hrc hrc ?_
    rw [hrcI]
    exact hgrow2.readItems _ D hDg hkeep hDread

/-- Witness of C7 on the example heap: its first list, of two items. -/
theorem stackList_deepCopy_items_witness :
    exampleHeap.stackLists[0]? = some pageOne ∧ pageOne.Items = some 0 ∧
      exampleHeap.ValidStackList (some 0) ∧
      ∃ h1 r rc d D arr,
        StackList.DeepCopyObject exampleHeap (some 0) = some (h1, Object.stackList (some r)) ∧
        h1.stackLists[r]? = some rc ∧
        rc.TypeMeta = pageOne.TypeMeta ∧ rc.ListMeta = pageOne.ListMeta ∧
        rc.Items = some d ∧ d ≠ 0 ∧ exampleHeap.stackArrays[0]? = some arr ∧
        h1.stackArrays[d]? = some D ∧ D.length = arr.length ∧
        h1.readStackList (some r) = exampleHeap.readStackList (some 0) ∧
        r ≠ 0 ∧ h1.stackLists[0]? = some pageOne ∧ h1.stackArrays[0]? = some arr ∧
        h1.readStackList (some 0) = exampleHeap.readStackList (some 0) ∧
        (∀ (i : Nat) (item : Stack String), arr[i]? = some item →
          ∃ ritem v, D[i]? = some ritem ∧ h1.readStackValue ritem = some v ∧
            exampleHeap.readStackValue item = some v ∧
            ∀ (k : Heap String String) (q : Nat), k.stackCells[q]? = some item →
              k.readStackValue item = some v →
              ∃ k2 c, Stack.clone k (some q) = some (k2, some c) ∧
                k2.readStack (some c) = some (some v)) ∧
        (∀ (i : Nat) (other : Stack String), i < D.length →
          ∃ h2, h1.setItem (some r) i other = some h2 ∧ h2.stackArrays[0]? = some arr ∧
            h2.readItems (some 0) = exampleHeap.readItems (some 0) ∧
            h2.stackLists[0]? = some pageOne ∧
            h2.readItems pageOne.Items = exampleHeap.readItems pageOne.Items ∧
            h2.readStackList (some 0) = exampleHeap.readStackList (some 0)) ∧
        (∀ (i : Nat) (other : Stack String), i < arr.length →
          ∃ h2, h1.setItem (some 0) i other = some h2 ∧ h2.stackLists[r]? = some rc ∧
            h2.stackArrays[d]? = some D ∧
            h2.readStackList (some r) = h1.readStackList (some r)) :=
  ⟨by decide, rfl, by decide,
    stackList_deepCopy_items exampleHeap 0 0 pageOne (by decide) rfl (by decide)⟩

/-- C9: `StackList.DeepCopyObject` keeps the difference between absent and empty: a nil list
copies to the nil object and leaves the heap as it is; a list whose `Items` is nil copies to a
new list whose `Items` is nil, with `TypeMeta` and `ListMeta` copied; a list whose `Items` is
non-nil and empty copies to a new list whose `Items` is a new, non-nil, empty array. -/
theorem stackList_deepCopy_absent_vs_empty (h : Heap ObjectMeta ListMeta) :
    StackList.DeepCopyObject h none = some (h, Object.nil) ∧
      (∀ (a : Nat) (lc : StackList ListMeta), h.stackLists[a]? = some lc → lc.Items = none →
        ∃ h1 r rc, StackList.DeepCopyObject h (some a) = some (h1, Object.stackList (some r)) ∧
          r ≠ a ∧ h1.stackLists[r]? = some rc ∧ rc.Items = none ∧
          rc.TypeMeta = lc.TypeMeta ∧ rc.ListMeta = lc.ListMeta) ∧
      (∀ (a src : Nat) (lc : StackList ListMeta), h.stackLists[a]? = some lc →
        lc.Items = some src → h.stackArrays[src]? = some [] →
        ∃ h1 r rc d, StackList.DeepCopyObject h (some a) = some (h1, Object.stackList (some r)) ∧
          r ≠ a ∧ h1.stackLists[r]? = some rc ∧ rc.Items = some d ∧ d ≠ src ∧
          h1.stackArrays[d]? = some [] ∧
          rc.TypeMeta = lc.TypeMeta ∧ rc.ListMeta = lc.ListMeta) := by
  refine ⟨rfl, ?_, ?_⟩
  · intro a lc hcell hi
    have la : a < h.stackLists.length := (List.getElem?_eq_some.mp hcell).1
    exact ⟨_, _, _, StackList.deepCopy_nilItems h a lc hcell hi, Nat.ne_of_gt la,
      getElem?_append_last _ _, rfl, rfl, rfl⟩
  · intro a src lc hcell hi hsrc
    have la : a < h.stackLists.length := (List.getElem?_eq_some.mp hcell).1
    have lsrc : src < h.stackArrays.length := (List.getElem?_eq_some.mp hsrc).1
    obtain ⟨g, hrun, -, -, ⟨D, harr, hD, -⟩, ⟨rc, hlists, hrcI, hrcT, hrcL⟩⟩ :=
      StackList.deepCopy_spec h a src lc [] hcell hi hsrc (fun i e he => by simp at he)
    obtain rfl : D = [] := List.length_eq_zero.mp hD
    refine ⟨g, _, rc, _, hrun, Nat.ne_of_gt la, ?_, hrcI, Nat.ne_of_gt lsrc, ?_, hrcT, hrcL⟩
    · rw [hlists]; exact getElem?_append_last _ _
    · rw [harr]; exact getElem?_append_last _ _

/-- Witness of C9 on the example heap: its second list has no items and its third list has a
non-nil empty items array. -/
theorem stackList_deepCopy_absent_vs_empty_witness :
    (∃ lc, exampleHeap.stackLists[1]? = some lc ∧ lc.Items = none ∧
      ∃ h1 r rc, StackList.DeepCopyObject exampleHeap (some 1) =
          some (h1, Object.stackList (some r)) ∧
        r ≠ 1 ∧ h1.stackLists[r]? = some rc ∧ rc.Items = none ∧
        rc.TypeMeta = lc.TypeMeta ∧ rc.ListMeta = lc.ListMeta) ∧
      (∃ lc, exampleHeap.stackLists[2]? = some lc ∧ lc.Items = some 1 ∧
        exampleHeap.stackArrays[1]? = some [] ∧
        ∃ h1 r rc d, StackList.DeepCopyObject exampleHeap (some 2) =
            some (h1, Object.stackList (some r)) ∧
          r ≠ 2 ∧ h1.stackLists[r]? = some rc ∧ rc.Items = some d ∧ d ≠ 1 ∧
          h1.stackArrays[d]? = some [] ∧
          rc.TypeMeta = lc.TypeMeta ∧ rc.ListMeta = lc.ListMeta) :=
  ⟨⟨_, rfl, rfl, (stackList_deepCopy_absent_vs_empty exampleHeap).2.1 1 _ rfl rfl⟩,
    ⟨_, rfl, rfl, rfl, (stackList_deepCopy_absent_vs_empty exampleHeap).2.2 2 1 _ rfl rfl rfl⟩⟩

/-! ## Claim about the object kind of `TypeMeta` -/

/-- C10: `GetObjectKind` returns the receiver itself, and for every group-version-kind whose
group and version contain no `/`, `obj.GetObjectKind().SetGroupVersionKind(gvk)` followed by
`obj.GroupVersionKind()` returns `gvk`; after the call `obj.Kind` is `gvk.Kind` and
`obj.APIVersion` is `Group + "/" + Version`, or the version alone when the group is empty (so
both fields are empty when `gvk` is entirely empty). -/
theorem typeMeta_set_then_get (store : List TypeMeta) (obj : Nat) (tm : TypeMeta)
    (gvk : GroupVersionKind) (hobj : store[obj]? = some tm) (hG : '/' ∉ gvk.Group.data)
    (hV : '/' ∉ gvk.Version.data) :
    TypeMeta.GetObjectKind (some obj) = some obj ∧
      ∃ store2 tm2,
        TypeMeta.SetGroupVersionKind store (TypeMeta.GetObjectKind (some obj)) gvk = some store2 ∧
        TypeMeta.GroupVersionKind store2 (some obj) = some gvk ∧
        store2[obj]? = some tm2 ∧ tm2.Kind = gvk.Kind ∧
        tm2.APIVersion =
          (if gvk.Group = "" then gvk.Version else gvk.Group ++ "/" ++ gvk.Version) ∧
        (gvk = { Group := "", Version := "", Kind := "" } →
          tm2 = { Kind := "", APIVersion := "" }) := by
  have lobj : obj < store.length := (List.getElem?_eq_some.mp hobj).1
  obtain ⟨G, V, K⟩ := gvk
  simp only at hG hV
  have hempty : ∀ t : String, t.length = 0 ↔ t = "" := fun t =>
    ⟨fun ht => String.ext (List.length_eq_zero.mp ht), fun ht => by subst ht; rfl⟩
  -- the two strings that `SetGroupVersionKind` stores
  have hto : (GroupVersionKind.mk G V K).ToAPIVersionAndKind =
      ((if G = "" then V else G ++ "/" ++ V), K) := by
    by_cases hGe : G = ""
    · by_cases hVe : V = ""
      · by_cases hKe : K = ""
        · subst hGe hVe hKe; rfl
        · subst hGe hVe
          have hK : ¬ (K.length = 0) := fun hk => hKe ((hempty K).mp hk)
          simp [GroupVersionKind.ToAPIVersionAndKind, GroupVersionKind.Empty,
            GroupVersion.String, hK]
      · subst hGe
        have hVl : ¬ (V.length = 0) := fun hv => hVe ((hempty V).mp hv)
        simp [GroupVersionKind.ToAPIVersionAndKind, GroupVersionKind.Empty,
          GroupVersion.String, hVl]
    · have hGl : ¬ (G.length = 0) := fun hg => hGe ((hempty G).mp hg)
      have hGp : G.length > 0 := Nat.pos_of_ne_zero hGl
      simp [GroupVersionKind.ToAPIVersionAndKind, GroupVersionKind.Empty,
        GroupVersion.String, hGl, hGp, hGe]
  -- and what `GroupVersionKind` reads back from them
  have hfrom : FromAPIVersionAndKind (if G = "" then V else G ++ "/" ++ V) K =
      { Group := G, Version := V, Kind := K } := by
    by_cases hGe : G = ""
    · subst hGe
      simp only [if_true, FromAPIVersionAndKind, ParseGroupVersion_version V hV]
    · have hGp : G.length > 0 :=
        Nat.pos_of_ne_zero (fun hg => hGe ((hempty G).mp hg))
      simp only [hGe, if_false, FromAPIVersionAndKind, ParseGroupVersion_join G V hG hV hGp]
  refine ⟨rfl, store.set obj { APIVersion := (if G = "" then V else G ++ "/" ++ V), Kind := K },
    { APIVersion := (if G = "" then V else G ++ "/" ++ V), Kind := K }, ?_, ?_,
    List.getElem?_set_self lobj, rfl, rfl, ?_⟩
  · simp only [TypeMeta.SetGroupVersionKind, TypeMeta.GetObjectKind, hobj, hto]
  · simp only [TypeMeta.GroupVersionKind, List.getElem?_set_self lobj, hfrom]
  · intro hz
    simp only [GroupVersionKind.mk.injEq] at hz
    obtain ⟨rfl, rfl, rfl⟩ := hz
    rfl

/-- Witness of C10: the group `compose.docker.com`, version `v1beta2` and kind `Stack`
written over a record that held other strings. -/
theorem typeMeta_set_then_get_witness :
    [({ Kind := "Old", APIVersion := "v0" } : TypeMeta)][0]? =
        some { Kind := "Old", APIVersion := "v0" } ∧
      '/' ∉ "compose.docker.com".data ∧ '/' ∉ "v1beta2".data ∧
      TypeMeta.GetObjectKind (some 0) = some 0 ∧
      ∃ store2 tm2,
        TypeMeta.SetGroupVersionKind [{ Kind := "Old", APIVersion := "v0" }]
          (TypeMeta.GetObjectKind (some 0))
          { Group := "compose.docker.com", Version := "v1beta2", Kind := "Stack" } =
            some store2 ∧
        TypeMeta.GroupVersionKind store2 (some 0) =
          some { Group := "compose.docker.com", Version := "v1beta2", Kind := "Stack" } ∧
        store2[0]? = some tm2 ∧ tm2.Kind = "Stack" ∧
        tm2.APIVersion =
          (if "compose.docker.com" = "" then "v1beta2"
           else "compose.docker.com" ++ "/" ++ "v1beta2") ∧
        ((⟨"compose.docker.com", "v1beta2", "Stack"⟩ : GroupVersionKind) =
            { Group := "", Version := "", Kind := "" } →
          tm2 = { Kind := "", APIVersion := "" }) :=
  ⟨rfl, by decide, by decide,
    typeMeta_set_then_get [{ Kind := "Old", APIVersion := "v0" }] 0
      { Kind := "Old", APIVersion := "v0" }
      { Group := "compose.docker.com", Version := "v1beta2", Kind := "Stack" } rfl
      (by decide) (by decide)⟩

/-! ## Sharing between a stack and its clone -/

/-- C1 (evaluation of the code): on the heap `sharedHeap`, whose stack `x` has one service, one
secret and one config, `c = x.Clone()` is a new stack, and yet a write to the name of the first
service of `c`, an insertion, a replacement or a deletion in the secrets or the configs of `c`
changes the value of `x`, and the same writes through `x` change the value of `c`: the clone
shares the array of services and the two maps with the original. -/
theorem clone_shares_services_and_maps :
    ∃ h1 c, Stack.Clone sharedHeap (some 0) = some (h1, c) ∧ c ≠ some 0 ∧
      h1.specOf c ≠ h1.specOf (some 0) ∧
      (∃ h2, h1.setServiceName c 0 "changed" = some h2 ∧
        h2.readStack (some 0) ≠ h1.readStack (some 0)) ∧
      (∃ h2, h1.putSecret c "added" default = some h2 ∧
        h2.readStack (some 0) ≠ h1.readStack (some 0)) ∧
      (∃ h2, h1.putSecret c "token" { (default : SecretConfig) with Labels := some 7 } =
          some h2 ∧
        h2.readStack (some 0) ≠ h1.readStack (some 0)) ∧
      (∃ h2, h1.deleteSecret c "token" = some h2 ∧
        h2.readStack (some 0) ≠ h1.readStack (some 0)) ∧
      (∃ h2, h1.putConfig c "added" default = some h2 ∧
        h2.readStack (some 0) ≠ h1.readStack (some 0)) ∧
      (∃ h2, h1.deleteConfig c "settings" = some h2 ∧
        h2.readStack (some 0) ≠ h1.readStack (some 0)) ∧
      (∃ h2, h1.setServiceName (some 0) 0 "changed" = some h2 ∧
        h2.readStack c ≠ h1.readStack c) ∧
      (∃ h2, h1.putSecret (some 0) "added" default = some h2 ∧
        h2.readStack c ≠ h1.readStack c) ∧
      (∃ h2, h1.deleteConfig (some 0) "settings" = some h2 ∧
        h2.readStack c ≠ h1.readStack c) :=
  ⟨_, _, rfl, by decide, by decide, ⟨_, rfl, by decide⟩, ⟨_, rfl, by decide⟩,
    ⟨_, rfl, by decide⟩, ⟨_, rfl, by decide⟩, ⟨_, rfl, by decide⟩, ⟨_, rfl, by decide⟩,
    ⟨_, rfl, by decide⟩, ⟨_, rfl, by decide⟩, ⟨_, rfl, by decide⟩⟩

/-! ## Scenario A -/

/-- C8: the text `${replica_count}` parses to a placeholder token that names `replica_count`,
and a Service record whose `Deploy.Replicas` holds that token renders, against the Parameter Set
that maps `replica_count` to `3`, to the number 3, which fits 64 bits. -/
theorem scenario_A_replicas :
    parseToken "${replica_count}" "deploy.replicas" =
        Except.ok { raw := "${replica_count}", kind := TokenKind.Placeholder,
                    placeholderNames := ["replica_count"] } ∧
      renderReplicas
          (replicaService { raw := "${replica_count}", kind := TokenKind.Placeholder,
                            placeholderNames := ["replica_count"] })
          [("replica_count", "3")] = Except.ok 3 ∧
      (3 : Nat) < 2 ^ 64 :=
  ⟨rfl, rfl, by decide⟩

end Claims

end Templatev1beta2
